import Mathlib

/-!
Verification of the analytical core of ctx-monitor.

The development shallowly embeds the analysis scripts of the repository:

* scripts/audit-intermittency.py  (intermittent-failure, unpaired-event and
  session-stability detectors)
* scripts/dashboard-renderer.py   (per-tool metrics, overall statistics and
  the health score)
* scripts/diff-engine.py          (trace analysis and trace diffing)

Modelling conventions:

* A parsed JSONL event is a record of optional string fields; `none` models an
  absent key, so Python's `event.get(k)` is the field itself and
  `event.get(k, d)` is `Option.getD _ d`.
* Python `float` arithmetic on error rates and scores is idealised as exact
  rational arithmetic (`ℚ`); `int(x)` is truncation toward zero (`ratTrunc`),
  `round(x, 1)` and `f-string .1f` formatting round half-to-even (`roundTenths`).
* Python dicts preserve insertion order; an aggregation dict keyed by strings
  is modelled as the list of keys in order of first occurrence (`dedupFirst`)
  together with per-key counting functions, which is exactly the finished
  dict's content.  Python `set`s are modelled as first-occurrence-deduplicated
  lists and are only ever treated as sets by the theorems.
* Duration statistics (`mean_time`, `stdev_time`, `min_time`, `max_time`) of
  `get_tool_metrics` are omitted from `ToolMetric`: they feed no analyzed
  result (alerts, statistics sums and the health score read only the call,
  success and error counts).
-/

namespace CtxMonitor

/-- One parsed trace event (a JSONL record).  `none` models an absent key. -/
structure Event where
  event_type : Option String := none
  session_id : Option String := none
  tool_name : Option String := none
  status : Option String := none
  timestamp : Option String := none
  error_message : Option String := none
deriving DecidableEq, Repr

/-! ### Generic helpers -/

/-- Keys of an insertion-ordered dict: first occurrence of each string, in
order, with `seen` the keys already emitted. -/
def dedupFirstAux (seen : List String) : List String → List String
  | [] => []
  | x :: xs =>
    if seen.contains x then dedupFirstAux seen xs
    else x :: dedupFirstAux (x :: seen) xs

/-- First-occurrence deduplication, the key order of a Python dict. -/
def dedupFirst (l : List String) : List String := dedupFirstAux [] l

/-- Python `int(x)` for a rational: truncation toward zero. -/
def ratTrunc (q : ℚ) : ℤ := if 0 ≤ q then ⌊q⌋ else ⌈q⌉

/-- Rounding of `10 * q` to the nearest integer, ties to even: the behaviour
of Python's `round(q, 1)` and `.1f` formatting on the idealised rational. -/
def roundTenths (q : ℚ) : ℤ :=
  let x : ℚ := q * 10
  let n : ℤ := ⌊x⌋
  let r : ℚ := x - n
  if r < 1/2 then n
  else if 1/2 < r then n + 1
  else if Even n then n else n + 1

/-- Python `round(q, 1)`. -/
def round1 (q : ℚ) : ℚ := (roundTenths q : ℚ) / 10

/-- Python `f"{q:.1f}"` for a non-negative rational. -/
def fmtTenths (q : ℚ) : String :=
  let n : ℕ := (roundTenths q).toNat
  toString (n / 10) ++ "." ++ toString (n % 10)

/-! ### audit-intermittency.py — shared accessors

The auditor reads fields with `"unknown"` defaults:
`event.get("tool_name", "unknown")`, `event.get("session_id", "unknown")`,
`event.get("status", "unknown")`. -/

def auditTool (e : Event) : String := e.tool_name.getD "unknown"

def auditSession (e : Event) : String := e.session_id.getD "unknown"

def auditStatus (e : Event) : String := e.status.getD "unknown"

def isPostEvent (e : Event) : Bool := e.event_type == some "PostToolUse"

def isPreEvent (e : Event) : Bool := e.event_type == some "PreToolUse"

/-! ### audit-intermittency.py — audit_tool_intermittency

`tool_stats` is a dict keyed by tool name over all PostToolUse events; an
event with `status == "error"` increments `error`, any other status
increments `success`. -/

def postEvents (events : List Event) : List Event := events.filter isPostEvent

def toolErrorCount (events : List Event) (t : String) : ℕ :=
  (postEvents events).countP (fun e => auditTool e == t && auditStatus e == "error")

def toolSuccessCount (events : List Event) (t : String) : ℕ :=
  (postEvents events).countP (fun e => auditTool e == t && !(auditStatus e == "error"))

def toolTotal (events : List Event) (t : String) : ℕ :=
  toolSuccessCount events t + toolErrorCount events t

/-- Distinct sessions (by first occurrence) among a tool's PostToolUse events. -/
def toolSessionCount (events : List Event) (t : String) : ℕ :=
  (dedupFirst (((postEvents events).filter (fun e => auditTool e == t)).map auditSession)).length

def toolErrorRate (events : List Event) (t : String) : ℚ :=
  (toolErrorCount events t : ℚ) / (toolTotal events t : ℚ)

structure IntermittencyIssue where
  type : String
  severity : String
  tool : String
  success_count : ℕ
  error_count : ℕ
  error_rate : ℚ
  sessions_affected : ℕ
  message : String
  remediation : String
deriving DecidableEq, Repr

/-- The issue (if any) `audit_tool_intermittency` appends for one tool. -/
def intermittencyIssueFor (threshold : ℚ) (events : List Event) (t : String) :
    Option IntermittencyIssue :=
  let total := toolTotal events t
  if total < 2 then none
  else
    let error_rate := toolErrorRate events t
    if threshold ≤ error_rate ∧ error_rate < 1 then
      some
        { type := "intermittent_tool_failure"
          severity := if error_rate < 0.3 then "warning" else "critical"
          tool := t
          success_count := toolSuccessCount events t
          error_count := toolErrorCount events t
          error_rate := round1 (error_rate * 100)
          sessions_affected := toolSessionCount events t
          message := "Tool '" ++ t ++ "' has " ++ fmtTenths (error_rate * 100) ++
            "% failure rate (" ++ toString (toolErrorCount events t) ++ "/" ++
            toString total ++ " calls)"
          remediation := "Investigate why '" ++ t ++
            "' fails intermittently. Check input patterns and error messages." }
    else none

/-- All issues of `audit_tool_intermittency`, in dict insertion order. -/
def auditToolIntermittency (threshold : ℚ) (events : List Event) :
    List IntermittencyIssue :=
  (dedupFirst ((postEvents events).map auditTool)).filterMap
    (intermittencyIssueFor threshold events)

/-! ### audit-intermittency.py — audit_session_stability

The `sessions` dict also tracks a per-session `events` counter, which the
issue does not report; it is not modelled.  Only `SessionStart` increments
`start` and only `SessionEnd` increments `end`. -/

def sessionKeys (events : List Event) : List String :=
  dedupFirst (events.map auditSession)

def sessionStartCount (events : List Event) (sid : String) : ℕ :=
  events.countP (fun e => auditSession e == sid && e.event_type == some "SessionStart")

def sessionEndCount (events : List Event) (sid : String) : ℕ :=
  events.countP (fun e => auditSession e == sid && e.event_type == some "SessionEnd")

structure StabilityIssue where
  type : String
  severity : String
  session_id : String
  starts : ℕ
  ends : ℕ
  message : String
  remediation : String
deriving DecidableEq, Repr

/-- The issue (if any) `audit_session_stability` appends for one session:
flagged when `stats["start"] > stats["end"] + 1`. -/
def stabilityIssueFor (events : List Event) (sid : String) : Option StabilityIssue :=
  if sessionEndCount events sid + 1 < sessionStartCount events sid then
    some
      { type := "session_instability"
        severity := "info"
        session_id := sid
        starts := sessionStartCount events sid
        ends := sessionEndCount events sid
        message := "Session has " ++ toString (sessionStartCount events sid) ++
          " starts but only " ++ toString (sessionEndCount events sid) ++ " ends"
        remediation := "Session may have crashed or been interrupted multiple times." }
  else none

def auditSessionStability (events : List Event) : List StabilityIssue :=
  (sessionKeys events).filterMap (stabilityIssueFor events)

/-! ### audit-intermittency.py — audit_unpaired_events

Events are grouped by session, sorted by timestamp (Python's stable sort,
modelled by a stable insertion sort on the code-point order of the
timestamp string), and walked keeping `pending_pre`, a dict from
`(tool_name, timestamp[:19])` to the pending PreToolUse event. -/

/-- Code-point lexicographic comparison of strings (Python `str` `<`),
via the character lists so that it evaluates by `decide`. -/
def charListLt : List Char → List Char → Bool
  | [], [] => false
  | [], _ :: _ => true
  | _ :: _, [] => false
  | c :: cs, d :: ds =>
    if c.val < d.val then true
    else if d.val < c.val then false
    else charListLt cs ds

def tsKey (e : Event) : String := e.timestamp.getD ""

def tsLt (a b : Event) : Bool := charListLt (tsKey a).data (tsKey b).data

/-- Stable insertion of `a` into `l`: `a` goes before the first element that
is not strictly smaller, so earlier-inserted equals stay first. -/
def sortInsert (a : Event) : List Event → List Event
  | [] => [a]
  | x :: xs => if tsLt x a then x :: sortInsert a xs else a :: x :: xs

/-- Stable sort by timestamp, Python's `sorted(events, key=timestamp)`. -/
def sortByTs : List Event → List Event
  | [] => []
  | a :: rest => sortInsert a (sortByTs rest)

/-- The key of the `pending_pre` dict: `(tool_name, timestamp[:19])`. -/
def pendKey (e : Event) : String × String := (auditTool e, (tsKey e).take 19)

/-- The `pending_pre` dict as an insertion-ordered association list. -/
abbrev Pending : Type := List ((String × String) × Event)

/-- Dict assignment `pending_pre[key] = event`: overwrite in place, else
append. -/
def pendInsert (k : String × String) (e : Event) : Pending → Pending
  | [] => [(k, e)]
  | (k1, e1) :: rest =>
    if k1 = k then (k, e) :: rest else (k1, e1) :: pendInsert k e rest

def pendHasKey (k : String × String) : Pending → Bool
  | [] => false
  | (k1, _) :: rest => k1 == k || pendHasKey k rest

/-- Dict deletion `del pending_pre[key]` (first, and only, entry with the
key). -/
def pendErase (k : String × String) : Pending → Pending
  | [] => []
  | (k1, e1) :: rest => if k1 = k then rest else (k1, e1) :: pendErase k rest

/-- The fallback `for k in list(pending_pre.keys()): if k[0] == tool_name:
del pending_pre[k]; break` — remove the first pending entry of the tool. -/
def pendFallback (t : String) : Pending → Pending
  | [] => []
  | (k1, e1) :: rest => if k1.1 = t then rest else (k1, e1) :: pendFallback t rest

/-- One event of the per-session sweep of `audit_unpaired_events`. -/
def stepPending (p : Pending) (e : Event) : Pending :=
  if isPreEvent e then pendInsert (pendKey e) e p
  else if isPostEvent e then
    if pendHasKey (pendKey e) p then pendErase (pendKey e) p
    else pendFallback (auditTool e) p
  else p

def runPending (p : Pending) (events : List Event) : Pending :=
  events.foldl stepPending p

structure UnpairedIssue where
  type : String
  severity : String
  tool : String
  session_id : String
  timestamp : Option String
  message : String
  remediation : String
deriving DecidableEq, Repr

def unpairedIssueOf (sid : String) (entry : (String × String) × Event) : UnpairedIssue :=
  { type := "unpaired_pretooluse"
    severity := "warning"
    tool := entry.1.1
    session_id := sid
    timestamp := entry.2.timestamp
    message := "PreToolUse for '" ++ entry.1.1 ++ "' has no matching PostToolUse"
    remediation := "Tool execution may have been interrupted. Check for timeouts or crashes." }

/-- Grouping by `event.get("session_id", "unknown")`, dict insertion order,
original order within each group (Python `defaultdict(list)`). -/
def groupBySession (events : List Event) : List (String × List Event) :=
  (sessionKeys events).map (fun sid => (sid, events.filter (fun e => auditSession e == sid)))

def sessionUnpairedIssues (sid : String) (sessionEvents : List Event) : List UnpairedIssue :=
  (runPending [] (sortByTs sessionEvents)).map (unpairedIssueOf sid)

def auditUnpairedEvents (events : List Event) : List UnpairedIssue :=
  (groupBySession events).flatMap (fun g => sessionUnpairedIssues g.1 g.2)

/-! ### dashboard-renderer.py — get_tool_metrics

`tool_stats` is keyed by `tool_name` over events with
`event_type == "PostToolUse" and tool_name` (Python truthiness: the name is
present and non-empty).  `status == "success"` increments `success`,
`status == "error"` increments `errors`; any other status only counts as a
call.  The result list is sorted by descending call count (Python's stable
sort with key `-calls`). -/

def truthyTool (e : Event) : Bool := !(e.tool_name.getD "" == "")

def metricTool (e : Event) : String := e.tool_name.getD ""

def metricPosts (events : List Event) : List Event :=
  events.filter (fun e => isPostEvent e && truthyTool e)

def metricKeys (events : List Event) : List String :=
  dedupFirst ((metricPosts events).map metricTool)

def metricCalls (events : List Event) (t : String) : ℕ :=
  (metricPosts events).countP (fun e => metricTool e == t)

def metricSuccess (events : List Event) (t : String) : ℕ :=
  (metricPosts events).countP (fun e => metricTool e == t && e.status == some "success")

def metricErrors (events : List Event) (t : String) : ℕ :=
  (metricPosts events).countP (fun e => metricTool e == t && e.status == some "error")

structure ToolMetric where
  tool : String
  calls : ℕ
  success : ℕ
  errors : ℕ
  rate : ℚ
deriving DecidableEq, Repr

def toolMetricFor (events : List Event) (t : String) : ToolMetric :=
  { tool := t
    calls := metricCalls events t
    success := metricSuccess events t
    errors := metricErrors events t
    rate := if 0 < metricCalls events t then
        (metricSuccess events t : ℚ) / (metricCalls events t : ℚ) * 100
      else 0 }

/-- Stable insertion for the descending-calls sort (`key=lambda x:
-x[1]["calls"]`): `m` goes before the first metric with no more calls. -/
def metricInsert (m : ToolMetric) : List ToolMetric → List ToolMetric
  | [] => [m]
  | x :: xs => if m.calls < x.calls then x :: metricInsert m xs else m :: x :: xs

def sortMetrics : List ToolMetric → List ToolMetric
  | [] => []
  | m :: rest => metricInsert m (sortMetrics rest)

def getToolMetrics (events : List Event) : List ToolMetric :=
  sortMetrics ((metricKeys events).map (toolMetricFor events))

/-! ### dashboard-renderer.py — compute_statistics and calculate_health_score -/

def totalCalls (events : List Event) : ℕ :=
  ((getToolMetrics events).map (fun m => m.calls)).sum

def totalErrors (events : List Event) : ℕ :=
  ((getToolMetrics events).map (fun m => m.errors)).sum

def preCount (events : List Event) : ℕ := events.countP isPreEvent

def postCount (events : List Event) : ℕ := events.countP isPostEvent

def hasSessionStart (events : List Event) : Bool :=
  events.any (fun e => e.event_type == some "SessionStart")

def hasSessionEndOrStop (events : List Event) : Bool :=
  events.any (fun e => e.event_type == some "SessionEnd" || e.event_type == some "Stop")

/-- Tools with `t["calls"] > 0 and t["errors"] / t["calls"] > 0.2`. -/
def unreliableCount (events : List Event) : ℕ :=
  (getToolMetrics events).countP
    (fun m => 0 < m.calls && decide ((0.2 : ℚ) < (m.errors : ℚ) / (m.calls : ℚ)))

/-- The `calculate_health_score` pipeline, step by step as in the source. -/
def calculateHealthScore (events : List Event) : ℤ :=
  let score1 : ℚ := 100 -
    (if 0 < totalCalls events then
        (totalErrors events : ℚ) / (totalCalls events : ℚ) * 40
      else 0)
  let score2 : ℚ := score1 - min ((unreliableCount events : ℚ) * 10) 30
  let score3 : ℚ := score2 - (if hasSessionStart events then 0 else 10)
  let score4 : ℚ := score3 - (if hasSessionEndOrStop events then 0 else 10)
  let score5 : ℚ := score4 -
    (if 0 < preCount events then
        (1 - min ((postCount events : ℚ) / (preCount events : ℚ)) 1) * 10
      else 0)
  max 0 (min 100 (ratTrunc score5))

/-! ### The spec-side health formula (for the refinement claim C1) -/

/-- Total PostToolUse-with-tool calls, counted directly over the events. -/
def directTotalCalls (events : List Event) : ℕ := (metricPosts events).length

def directTotalErrors (events : List Event) : ℕ :=
  (metricPosts events).countP (fun e => e.status == some "error")

/-- The overall error rate, total errors over total calls (0 without calls). -/
def overallErrorRate (events : List Event) : ℚ :=
  if 0 < directTotalCalls events then
    (directTotalErrors events : ℚ) / (directTotalCalls events : ℚ)
  else 0

/-- Count of tools whose error rate is strictly over 0.2, per tool key. -/
def unreliableKeyCount (events : List Event) : ℕ :=
  (metricKeys events).countP
    (fun t => decide ((0.2 : ℚ) < (metricErrors events t : ℚ) / (metricCalls events t : ℚ)))

/-- Stated health-score formula, written from the spec's words (§4.4):
start from 100.0; subtract `overall_error_rate × 40`; subtract
`min(10 × count_of_tools_with_error_rate_over_0.2, 30)`; subtract 10 if no
SessionStart exists and 10 if neither SessionEnd nor Stop exists; subtract
`(1 − min(post_count/pre_count, 1.0)) × 10` when `pre_count > 0`; clamp to
[0, 100] and truncate to an integer. -/
def healthScoreSpecFormula (errorRate : ℚ) (unreliableTools : ℕ)
    (hasStart hasEnd : Bool) (pres posts : ℕ) : ℤ :=
  let s : ℚ := 100 - errorRate * 40
    - min (10 * (unreliableTools : ℚ)) 30
    - (if hasStart then 0 else 10)
    - (if hasEnd then 0 else 10)
    - (if 0 < pres then (1 - min ((posts : ℚ) / (pres : ℚ)) 1) * 10 else 0)
  max 0 (min 100 (ratTrunc s))

/-! ### diff-engine.py — analyze_trace

`tool_calls` is keyed by the signature `f"{event_type}:{tool_name}"` over
events with truthy `tool_name`; `event_type` defaults to `"unknown"`.
`errors` collects `(tool_name, error_message)` of truthy-tool events whose
status is `"error"`. -/

def diffToolEvents (events : List Event) : List Event := events.filter truthyTool

def sigOf (e : Event) : String :=
  e.event_type.getD "unknown" ++ ":" ++ e.tool_name.getD ""

def sigKeys (events : List Event) : List String :=
  dedupFirst ((diffToolEvents events).map sigOf)

def sigCount (events : List Event) (k : String) : ℕ :=
  (diffToolEvents events).countP (fun e => sigOf e == k)

def sigErrors (events : List Event) (k : String) : ℕ :=
  (diffToolEvents events).countP (fun e => sigOf e == k && e.status == some "error")

def errorEvents (events : List Event) : List Event :=
  (diffToolEvents events).filter (fun e => e.status == some "error")

structure SigStats where
  count : ℕ
  errors : ℕ
  statuses : List (Option String)
deriving DecidableEq, Repr

structure TraceAnalysis where
  tool_calls : List (String × SigStats)
  event_sequence : List (String × Option String × Option String)
  total_events : ℕ
  errors : List (String × String)
  error_count : ℕ
deriving DecidableEq, Repr

def analyzeTrace (events : List Event) : TraceAnalysis :=
  { tool_calls := (sigKeys events).map (fun k =>
      (k, { count := sigCount events k
            errors := sigErrors events k
            statuses := ((diffToolEvents events).filter (fun e => sigOf e == k)).map
              (fun e => e.status) }))
    event_sequence := events.map (fun e => (e.event_type.getD "unknown", e.tool_name, e.status))
    total_events := events.length
    errors := (errorEvents events).map (fun e => (e.tool_name.getD "", e.error_message.getD "Unknown"))
    error_count := (errorEvents events).length }

/-! ### diff-engine.py — compare_traces -/

structure ChangedTool where
  tool : String
  count_change : Option (ℕ × ℕ)
  errors_change : Option (ℕ × ℕ)
deriving DecidableEq, Repr

structure DiffSummary where
  added_count : ℕ
  removed_count : ℕ
  changed_count : ℕ
  new_errors_count : ℕ
  resolved_errors_count : ℕ
  has_regressions : Bool
deriving DecidableEq, Repr

structure DiffResult where
  added_tools : List String
  removed_tools : List String
  changed_tools : List ChangedTool
  error_changes : List (String × List String)
  sequence_changes : List (String × ℕ × ℕ)
  summary : DiffSummary
deriving DecidableEq, Repr

def toolKeysOf (t : TraceAnalysis) : List String := t.tool_calls.map Prod.fst

def lookupStats (t : TraceAnalysis) (k : String) : SigStats :=
  (t.tool_calls.lookup k).getD { count := 0, errors := 0, statuses := [] }

/-- The `changed_tools` entry (if any) for one common key. -/
def changedFor (t1 t2 : TraceAnalysis) (k : String) : Option ChangedTool :=
  let s1 := lookupStats t1 k
  let s2 := lookupStats t2 k
  let cc : Option (ℕ × ℕ) := if s1.count ≠ s2.count then some (s1.count, s2.count) else none
  let ec : Option (ℕ × ℕ) := if s1.errors ≠ s2.errors then some (s1.errors, s2.errors) else none
  if cc = none ∧ ec = none then none else some { tool := k, count_change := cc, errors_change := ec }

/-- The set of error-producing tool names of an analyzed trace
(`set(e["tool"] for e in errors)`), as a first-occurrence list. -/
def errToolSetOf (t : TraceAnalysis) : List String := dedupFirst (t.errors.map Prod.fst)

def newErrorsOf (t1 t2 : TraceAnalysis) : List String :=
  (errToolSetOf t2).filter (fun x => !((errToolSetOf t1).contains x))

def resolvedErrorsOf (t1 t2 : TraceAnalysis) : List String :=
  (errToolSetOf t1).filter (fun x => !((errToolSetOf t2).contains x))

/-- Truthy-tool names of the recorded event sequence
(`[e["tool"] for e in event_sequence if e["tool"]]`). -/
def seqTools (t : TraceAnalysis) : List String :=
  t.event_sequence.filterMap (fun s =>
    match s.2.1 with
    | some name => if name = "" then none else some name
    | none => none)

def compareTraces (t1 t2 : TraceAnalysis) : DiffResult :=
  let tools1 := toolKeysOf t1
  let tools2 := toolKeysOf t2
  let added := tools2.filter (fun k => !(tools1.contains k))
  let removed := tools1.filter (fun k => !(tools2.contains k))
  let common := tools1.filter (fun k => tools2.contains k)
  let changed := common.filterMap (changedFor t1 t2)
  let newErrors := newErrorsOf t1 t2
  let resolvedErrors := resolvedErrorsOf t1 t2
  { added_tools := added
    removed_tools := removed
    changed_tools := changed
    error_changes :=
      (if !newErrors.isEmpty then [("new_errors", newErrors)] else []) ++
      (if !resolvedErrors.isEmpty then [("resolved_errors", resolvedErrors)] else [])
    sequence_changes :=
      if seqTools t1 ≠ seqTools t2 then
        [("Tool call sequence differs", (seqTools t1).length, (seqTools t2).length)]
      else []
    summary :=
      { added_count := added.length
        removed_count := removed.length
        changed_count := changed.length
        new_errors_count := newErrors.length
        resolved_errors_count := resolvedErrors.length
        has_regressions := !newErrors.isEmpty ||
          changed.any (fun c =>
            match c.errors_change with
            | some fromTo => decide (fromTo.1 < fromTo.2)
            | none => false) } }

/-- New-errors tools recorded in a diff's `error_changes`. -/
def diffNewErrors (d : DiffResult) : List String :=
  (d.error_changes.filter (fun ec => ec.1 == "new_errors")).flatMap Prod.snd

/-- Resolved-errors tools recorded in a diff's `error_changes`. -/
def diffResolvedErrors (d : DiffResult) : List String :=
  (d.error_changes.filter (fun ec => ec.1 == "resolved_errors")).flatMap Prod.snd

/-! ### Session-shape predicates for the pairing claims -/

def isPrePost (e : Event) : Bool := isPreEvent e || isPostEvent e

/-- The PreToolUse/PostToolUse events of one tool, in order. -/
def toolEvents (t : String) (events : List Event) : List Event :=
  events.filter (fun e => isPrePost e && auditTool e == t)

/-- The tools that occur on Pre/PostToolUse events. -/
def sessionToolKeys (events : List Event) : List String :=
  dedupFirst ((events.filter isPrePost).map auditTool)

/-- A sequence of alternating PreToolUse/PostToolUse pairs. -/
def altPairs : List Event → Bool
  | [] => true
  | [_] => false
  | a :: b :: rest => isPreEvent a && isPostEvent b && altPairs rest

/-- The pending-dict keys of the PreToolUse events of a list. -/
def preKeys (l : List Event) : List (String × String) :=
  (l.filter isPreEvent).map pendKey

/-- All events belong to one session (under the auditor's
`get("session_id", "unknown")` view). -/
abbrev sameSession (sid : String) (events : List Event) : Prop :=
  ∀ e ∈ events, auditSession e = sid

/-- The events are already in timestamp order (non-decreasing timestamp
strings), so Python's stable sort leaves them unchanged. -/
abbrev tsSorted (events : List Event) : Prop :=
  List.Pairwise (fun a b => tsLt b a = false) events

/-- Every tool's Pre/Post subsequence is a run of alternating pairs. -/
abbrev allAlternating (events : List Event) : Prop :=
  ∀ t ∈ sessionToolKeys events, altPairs (toolEvents t events) = true

/-- The pending-dict keys of one tool's PreToolUse events are pairwise
distinct (no two Pre events of the tool share a second-truncated
timestamp). -/
abbrev distinctPreKeys (t : String) (events : List Event) : Prop :=
  (preKeys (toolEvents t events)).Nodup

/-- Restriction of a pending dict to one tool's entries. -/
def pendFilter (t : String) (p : Pending) : Pending :=
  p.filter (fun kv => kv.1.1 == t)

/-! ### Concrete scenario inputs used by individual claims -/

def mkPost (tool st : String) : Event :=
  { event_type := some "PostToolUse", tool_name := some tool, status := some st,
    session_id := some "s1" }

def preEvent (tool ts sid : String) : Event :=
  { event_type := some "PreToolUse", tool_name := some tool,
    timestamp := some ts, session_id := some sid }

def postEventAt (tool ts sid : String) : Event :=
  { event_type := some "PostToolUse", tool_name := some tool,
    status := some "success", timestamp := some ts, session_id := some sid }

/-- C2 scenario: tool "Bash" called 10 times, 3 errors interleaved. -/
def c2Events : List Event :=
  [mkPost "Bash" "success", mkPost "Bash" "success", mkPost "Bash" "error",
   mkPost "Bash" "success", mkPost "Bash" "success", mkPost "Bash" "error",
   mkPost "Bash" "success", mkPost "Bash" "success", mkPost "Bash" "error",
   mkPost "Bash" "success"]

/-- The issue the C2 scenario produces. -/
def c2Issue : IntermittencyIssue :=
  { type := "intermittent_tool_failure"
    severity := "critical"
    tool := "Bash"
    success_count := 7
    error_count := 3
    error_rate := 30
    sessions_affected := 1
    message := "Tool 'Bash' has 30.0% failure rate (3/10 calls)"
    remediation := "Investigate why 'Bash' fails intermittently. Check input patterns and error messages." }

/-- C6 counterexample input: two successful calls, error rate exactly 0. -/
def c6Events : List Event := [mkPost "Bash" "success", mkPost "Bash" "success"]

/-- The issue the detector emits on `c6Events` at threshold 0. -/
def c6Issue : IntermittencyIssue :=
  { type := "intermittent_tool_failure"
    severity := "warning"
    tool := "Bash"
    success_count := 2
    error_count := 0
    error_rate := 0
    sessions_affected := 1
    message := "Tool 'Bash' has 0.0% failure rate (0/2 calls)"
    remediation := "Investigate why 'Bash' fails intermittently. Check input patterns and error messages." }

/-- C5 counterexample input: two SessionStart events and one Stop. -/
def c5Events : List Event :=
  [{ event_type := some "SessionStart", session_id := some "s" },
   { event_type := some "SessionStart", session_id := some "s" },
   { event_type := some "Stop", session_id := some "s" }]

/-- C7 counterexample input: two calls whose status is neither success nor
error. -/
def c7Events : List Event := [mkPost "Bash" "pending", mkPost "Bash" "pending"]

/-- C7 witness input: two successful calls. -/
def c7wEvents : List Event := [mkPost "Read" "success", mkPost "Read" "success"]

/-- C4 counterexample session: two alternating Bash pairs whose four events
all fall within the same second. -/
def c4xPre1 : Event := preEvent "Bash" "2024-01-01T00:00:00.100" "s1"

def c4xPost1 : Event := postEventAt "Bash" "2024-01-01T00:00:00.200" "s1"

def c4xPre2 : Event := preEvent "Bash" "2024-01-01T00:00:00.300" "s1"

def c4xPost2 : Event := postEventAt "Bash" "2024-01-01T00:00:00.400" "s1"

def c4xFull : List Event := [c4xPre1, c4xPost1, c4xPre2, c4xPost2]

/-- C4 witness session: Bash and Read pairs with distinct seconds. -/
def c4wEvents : List Event :=
  [preEvent "Bash" "2024-01-01T00:00:01.000" "s1",
   postEventAt "Bash" "2024-01-01T00:00:01.500" "s1",
   preEvent "Bash" "2024-01-01T00:00:02.000" "s1",
   postEventAt "Bash" "2024-01-01T00:00:02.500" "s1",
   preEvent "Read" "2024-01-01T00:00:03.000" "s1",
   postEventAt "Read" "2024-01-01T00:00:03.500" "s1"]

/-- The tool names of a trace's error-producing events (the `tool` fields
of the analyzed trace's `errors` list), with multiplicity. -/
def errTools (events : List Event) : List String :=
  (errorEvents events).map (fun e => e.tool_name.getD "")

/-! ## Helper lemmas -/

theorem mem_dedupFirstAux {x : String} :
    ∀ (l seen : List String), x ∈ dedupFirstAux seen l ↔ x ∈ l ∧ ¬ seen.contains x = true := by
  intro l
  induction l with
  | nil => intro seen; simp [dedupFirstAux]
  | cons y ys ih =>
    intro seen
    by_cases hy : seen.contains y = true
    · rw [dedupFirstAux, if_pos hy, ih, List.mem_cons]
      constructor
      · rintro ⟨h1, h2⟩; exact ⟨Or.inr h1, h2⟩
      · rintro ⟨h1 | h1, h2⟩
        · exact absurd (h1 ▸ hy) h2
        · exact ⟨h1, h2⟩
    · rw [dedupFirstAux, if_neg hy]
      simp only [List.mem_cons, ih, List.contains_cons, Bool.or_eq_true, beq_iff_eq]
      constructor
      · rintro (rfl | ⟨h1, h2⟩)
        · exact ⟨Or.inl rfl, hy⟩
        · refine ⟨Or.inr h1, fun hc => h2 (Or.inr hc)⟩
      · rintro ⟨rfl | h1, h2⟩
        · exact Or.inl rfl
        · rcases eq_or_ne x y with rfl | hxy
          · exact Or.inl rfl
          · refine Or.inr ⟨h1, fun hc => ?_⟩
            rcases hc with hc | hc
            · exact hxy (by simpa using hc)
            · exact h2 hc

theorem mem_dedupFirst {x : String} {l : List String} : x ∈ dedupFirst l ↔ x ∈ l := by
  simp [dedupFirst, mem_dedupFirstAux]

theorem nodup_dedupFirstAux : ∀ (l seen : List String), (dedupFirstAux seen l).Nodup := by
  intro l
  induction l with
  | nil => intro seen; simp [dedupFirstAux]
  | cons y ys ih =>
    intro seen
    by_cases hy : seen.contains y = true
    · rw [dedupFirstAux, if_pos hy]; exact ih seen
    · rw [dedupFirstAux, if_neg hy]
      refine List.Nodup.cons ?_ (ih (y :: seen))
      intro hmem
      rcases (mem_dedupFirstAux ys (y :: seen)).1 hmem with ⟨_, hns⟩
      exact hns (by simp)

theorem nodup_dedupFirst (l : List String) : (dedupFirst l).Nodup := nodup_dedupFirstAux l []

theorem dedupFirstAux_eq_nil {l seen : List String}
    (h : ∀ x ∈ l, seen.contains x = true) : dedupFirstAux seen l = [] := by
  induction l with
  | nil => rfl
  | cons y ys ih =>
    rw [dedupFirstAux, if_pos (h y (by simp))]
    exact ih fun x hx => h x (by simp [hx])

theorem dedupFirst_const {l : List String} {c : String} (hne : l ≠ [])
    (h : ∀ x ∈ l, x = c) : dedupFirst l = [c] := by
  cases l with
  | nil => exact absurd rfl hne
  | cons y ys =>
    have hy : y = c := h y (by simp)
    subst hy
    rw [dedupFirst, dedupFirstAux, if_neg (by simp)]
    rw [dedupFirstAux_eq_nil]
    intro x hx
    have := h x (by simp [hx])
    simp [this]

theorem ratTrunc_mono {a b : ℚ} (h : a ≤ b) : ratTrunc a ≤ ratTrunc b := by
  unfold ratTrunc
  by_cases ha : 0 ≤ a
  · rw [if_pos ha, if_pos (ha.trans h)]
    exact Int.floor_mono h
  · rw [if_neg ha]
    by_cases hb : 0 ≤ b
    · rw [if_pos hb]
      exact le_trans (Int.ceil_le.2 (by exact_mod_cast le_of_not_le ha)) (Int.floor_nonneg.2 hb)
    · rw [if_neg hb]
      exact Int.ceil_mono h

theorem countP_conj_disjoint_le {α : Type} (p q r : α → Bool) (l : List α)
    (h : ∀ a, ¬(q a = true ∧ r a = true)) :
    l.countP (fun a => p a && q a) + l.countP (fun a => p a && r a) ≤ l.countP p := by
  induction l with
  | nil => simp
  | cons a as ih =>
    simp only [List.countP_cons]
    have := h a
    rcases hq : q a <;> rcases hr : r a <;> rcases hp : p a <;> simp_all <;> omega

theorem countP_conj_le {α : Type} (p q : α → Bool) (l : List α) :
    l.countP (fun a => p a && q a) ≤ l.countP p :=
  List.countP_mono_left fun a _ hpq => (Bool.and_eq_true _ _ ▸ hpq).1

theorem sum_map_indicator_not_mem {D : List String} {k : String} (hk : k ∉ D) :
    (D.map (fun t => if k == t then (1 : ℕ) else 0)).sum = 0 := by
  induction D with
  | nil => simp
  | cons d ds ih =>
    have hkd : ¬ (k == d) = true := by
      simp only [beq_iff_eq]; rintro rfl; exact hk (by simp)
    simp only [List.map_cons, List.sum_cons, if_neg hkd]
    rw [ih (fun hmem => hk (by simp [hmem]))]

theorem sum_map_indicator_mem {D : List String} {k : String} (hnd : D.Nodup) (hk : k ∈ D) :
    (D.map (fun t => if k == t then (1 : ℕ) else 0)).sum = 1 := by
  induction D with
  | nil => simp at hk
  | cons d ds ih =>
    rcases List.mem_cons.1 hk with rfl | hmem
    · simp only [List.map_cons, List.sum_cons, if_pos (by simp : (k == k) = true)]
      rw [sum_map_indicator_not_mem (List.nodup_cons.1 hnd).1]
    · have hkd : ¬ (k == d) = true := by
        simp only [beq_iff_eq]; rintro rfl
        exact (List.nodup_cons.1 hnd).1 hmem
      simp only [List.map_cons, List.sum_cons, if_neg hkd]
      rw [ih (List.nodup_cons.1 hnd).2 hmem]

theorem sum_map_countP_eq {α : Type} (key : α → String) (p : α → Bool)
    (D : List String) :
    ∀ (l : List α), D.Nodup → (∀ e ∈ l, key e ∈ D) →
      (D.map (fun t => l.countP (fun e => p e && (key e == t)))).sum = l.countP p := by
  intro l
  induction l with
  | nil =>
    intro _ _
    simp only [List.countP_nil]
    induction D with
    | nil => simp
    | cons d ds ihD => simpa using ihD
  | cons e es ih =>
    intro hnd hmem
    have hrec := ih hnd (fun x hx => hmem x (by simp [hx]))
    have hsplit : ∀ t : String,
        (e :: es).countP (fun a => p a && (key a == t)) =
          es.countP (fun a => p a && (key a == t)) +
            (if p e then (if key e == t then 1 else 0) else 0) := by
      intro t
      rw [List.countP_cons]
      rcases hp : p e <;> rcases hk : (key e == t) <;> simp [hp, hk]
    have hmap : (D.map (fun t => (e :: es).countP (fun a => p a && (key a == t)))).sum =
        (D.map (fun t => es.countP (fun a => p a && (key a == t)))).sum +
          (D.map (fun t => if p e then (if key e == t then 1 else 0) else 0)).sum := by
      rw [← List.sum_map_add]
      rw [List.map_congr_left (fun t _ => hsplit t)]
    rw [hmap, hrec, List.countP_cons]
    rcases hp : p e
    · simp [hp]
    · rw [List.map_congr_left (fun t _ => by rw [if_pos rfl] :
        ∀ t ∈ D, (if true = true then (if key e == t then (1:ℕ) else 0) else 0) =
          (if key e == t then (1:ℕ) else 0))]
      rw [sum_map_indicator_mem hnd (hmem e (by simp)), if_pos rfl]

theorem metricInsert_perm (m : ToolMetric) : ∀ l, (metricInsert m l).Perm (m :: l) := by
  intro l
  induction l with
  | nil => simp [metricInsert]
  | cons x xs ih =>
    rw [metricInsert]
    by_cases hc : m.calls < x.calls
    · rw [if_pos hc]
      exact (ih.cons x).trans (List.Perm.swap m x xs)
    · rw [if_neg hc]

theorem sortMetrics_perm : ∀ l, (sortMetrics l).Perm l := by
  intro l
  induction l with
  | nil => simp [sortMetrics]
  | cons m rest ih =>
    rw [sortMetrics]
    exact (metricInsert_perm m (sortMetrics rest)).trans (ih.cons m)

theorem getToolMetrics_perm (events : List Event) :
    (getToolMetrics events).Perm ((metricKeys events).map (toolMetricFor events)) :=
  sortMetrics_perm _

theorem lookup_map_self {β : Type} (f : String → β) :
    ∀ (keys : List String) (k : String), k ∈ keys →
      ((keys.map (fun t => (t, f t))).lookup k) = some (f k) := by
  intro keys
  induction keys with
  | nil => intro k hk; simp at hk
  | cons d ds ih =>
    intro k hk
    by_cases hkd : k = d
    · subst hkd; simp [List.lookup]
    · have hbeq : (k == d) = false := by simpa using hkd
      rw [List.map_cons]
      simp only [List.lookup, hbeq]
      exact ih k ((List.mem_cons.1 hk).resolve_left hkd)

/-! ## Intermittent-failure detector: characterization -/

theorem intermittencyIssueFor_some {threshold : ℚ} {events : List Event} {t : String}
    {i : IntermittencyIssue} (h : intermittencyIssueFor threshold events t = some i) :
    2 ≤ toolTotal events t ∧ threshold ≤ toolErrorRate events t ∧
    toolErrorRate events t < 1 ∧ i.tool = t ∧
    i.severity = (if toolErrorRate events t < 0.3 then "warning" else "critical") := by
  simp only [intermittencyIssueFor] at h
  by_cases h1 : toolTotal events t < 2
  · rw [if_pos h1] at h; exact absurd h (by simp)
  · rw [if_neg h1] at h
    by_cases h2 : threshold ≤ toolErrorRate events t ∧ toolErrorRate events t < 1
    · rw [if_pos h2] at h
      injection h with hi
      subst hi
      exact ⟨by omega, h2.1, h2.2, rfl, rfl⟩
    · rw [if_neg h2] at h; exact absurd h (by simp)

theorem intermittencyIssueFor_make {threshold : ℚ} {events : List Event} {t : String}
    (h1 : 2 ≤ toolTotal events t) (h2 : threshold ≤ toolErrorRate events t)
    (h3 : toolErrorRate events t < 1) :
    ∃ i, intermittencyIssueFor threshold events t = some i ∧ i.tool = t := by
  simp only [intermittencyIssueFor]
  rw [if_neg (by omega), if_pos ⟨h2, h3⟩]
  exact ⟨_, rfl, rfl⟩

theorem tool_mem_auditKeys {events : List Event} {t : String}
    (h : 2 ≤ toolTotal events t) :
    t ∈ dedupFirst ((postEvents events).map auditTool) := by
  have hpos : 0 < toolSuccessCount events t ∨ 0 < toolErrorCount events t := by
    unfold toolTotal at h; omega
  rcases hpos with hpos | hpos <;>
  · rcases List.countP_pos_iff.1 hpos with ⟨e, he, hp⟩
    simp only [Bool.and_eq_true] at hp
    exact mem_dedupFirst.2 (List.mem_map.2 ⟨e, he, beq_iff_eq.1 hp.1⟩)

/-- Claim C2: for every tool with at least 2 PostToolUse observations the
intermittent-failure detector emits an Issue exactly when
`threshold ≤ error_rate < 1.0`, with severity critical iff
`error_rate ≥ 0.3`; and on the scenario of tool "Bash" called 10 times with
3 interleaved errors (rate 0.30) it emits exactly one critical Issue whose
message contains "30.0%". -/
theorem claim_C2 :
    (∀ (threshold : ℚ) (events : List Event) (t : String),
      2 ≤ toolTotal events t →
      (((∃ i ∈ auditToolIntermittency threshold events, i.tool = t) ↔
        (threshold ≤ toolErrorRate events t ∧ toolErrorRate events t < 1)) ∧
      (∀ i ∈ auditToolIntermittency threshold events, i.tool = t →
        i.severity = if (0.3 : ℚ) ≤ toolErrorRate events t then "critical" else "warning")))
    ∧ (auditToolIntermittency 0.1 c2Events = [c2Issue] ∧
       toolErrorRate c2Events "Bash" = 0.3 ∧
       c2Issue.severity = "critical" ∧
       ∃ s1 s2, c2Issue.message = s1 ++ "30.0%" ++ s2) := by
  constructor
  · intro threshold events t htot2
    constructor
    · constructor
      · rintro ⟨i, hi, hit⟩
        rcases List.mem_filterMap.1 hi with ⟨u, _, hfor⟩
        obtain ⟨_, h2, h3, htool, _⟩ := intermittencyIssueFor_some hfor
        have hut : u = t := by rw [← htool, hit]
        rw [hut] at h2 h3
        exact ⟨h2, h3⟩
      · rintro ⟨h2, h3⟩
        obtain ⟨i, hfor, htool⟩ := intermittencyIssueFor_make htot2 h2 h3
        exact ⟨i, List.mem_filterMap.2 ⟨t, tool_mem_auditKeys htot2, hfor⟩, htool⟩
    · intro i hi hit
      rcases List.mem_filterMap.1 hi with ⟨u, _, hfor⟩
      obtain ⟨_, _, _, htool, hsev⟩ := intermittencyIssueFor_some hfor
      have hut : u = t := by rw [← htool, hit]
      rw [hut] at hsev
      rw [hsev]
      rcases lt_or_le (toolErrorRate events t) 0.3 with hlt | hle
      · rw [if_pos hlt, if_neg (not_le.2 hlt)]
      · rw [if_neg (not_lt.2 hle), if_pos hle]
  · have htot : toolTotal c2Events "Bash" = 10 := by decide
    have herr : toolErrorCount c2Events "Bash" = 3 := by decide
    have hsucc : toolSuccessCount c2Events "Bash" = 7 := by decide
    have hsess : toolSessionCount c2Events "Bash" = 1 := by decide
    have her : toolErrorRate c2Events "Bash" = 0.3 := by
      rw [toolErrorRate, herr, htot]; norm_num
    have h300 : roundTenths ((0.3 : ℚ) * 100) = 300 := by
      simp only [roundTenths]
      norm_num
    have hrd : round1 ((0.3 : ℚ) * 100) = 30 := by rw [round1, h300]; norm_num
    have hfmt : fmtTenths ((0.3 : ℚ) * 100) = "30.0" := by
      simp only [fmtTenths, h300]; decide
    have hkeys : dedupFirst ((postEvents c2Events).map auditTool) = ["Bash"] := by decide
    have hfor : intermittencyIssueFor 0.1 c2Events "Bash" = some c2Issue := by
      simp only [intermittencyIssueFor, htot, her, herr, hsucc, hsess, hrd, hfmt]
      rw [if_neg (by norm_num), if_pos (by norm_num), if_neg (by norm_num)]
      decide
    refine ⟨?_, her, rfl, "Tool 'Bash' has ", " failure rate (3/10 calls)", by decide⟩
    rw [auditToolIntermittency, hkeys]
    simp [hfor]

/-- Witness for claim C2 at the concrete scenario input. -/
theorem claim_C2_witness :
    2 ≤ toolTotal c2Events "Bash" ∧
    ((∃ i ∈ auditToolIntermittency 0.1 c2Events, i.tool = "Bash") ↔
      ((0.1 : ℚ) ≤ toolErrorRate c2Events "Bash" ∧ toolErrorRate c2Events "Bash" < 1)) :=
  ⟨by decide, (claim_C2.1 0.1 c2Events "Bash" (by decide)).1⟩

/-- Counterexample to claim C6 as stated: with the configured threshold 0,
a tool with two successes (error rate exactly 0) is flagged. -/
theorem claim_C6_counterexample :
    toolErrorRate c6Events "Bash" = 0 ∧
    auditToolIntermittency 0 c6Events = [c6Issue] ∧
    c6Issue.tool = "Bash" ∧ c6Issue.error_rate = 0 := by
  have htot : toolTotal c6Events "Bash" = 2 := by decide
  have herr : toolErrorCount c6Events "Bash" = 0 := by decide
  have hsucc : toolSuccessCount c6Events "Bash" = 2 := by decide
  have hsess : toolSessionCount c6Events "Bash" = 1 := by decide
  have her : toolErrorRate c6Events "Bash" = 0 := by
    rw [toolErrorRate, herr, htot]; norm_num
  have h0 : roundTenths ((0 : ℚ) * 100) = 0 := by
    simp only [roundTenths]; norm_num
  have hrd : round1 ((0 : ℚ) * 100) = 0 := by rw [round1, h0]; norm_num
  have hfmt : fmtTenths ((0 : ℚ) * 100) = "0.0" := by
    simp only [fmtTenths, h0]; decide
  have hkeys : dedupFirst ((postEvents c6Events).map auditTool) = ["Bash"] := by decide
  have hfor : intermittencyIssueFor 0 c6Events "Bash" = some c6Issue := by
    simp only [intermittencyIssueFor, htot, her, herr, hsucc, hsess, hrd, hfmt]
    rw [if_neg (by norm_num), if_pos (by norm_num), if_pos (by norm_num)]
    decide
  refine ⟨her, ?_, rfl, rfl⟩
  rw [auditToolIntermittency, hkeys]
  simp [hfor]

/-- Claim C6, amended: for every strictly positive configured threshold the
detector never flags a tool whose error rate is exactly 0, and for every
threshold it never flags a tool whose error rate is exactly 1.0 (with
threshold ≤ 0 a tool at error rate 0 is flagged, as the counterexample
shows). -/
theorem claim_C6_amended :
    ∀ (threshold : ℚ) (events : List Event) (t : String),
      (0 < threshold → toolErrorRate events t = 0 →
        ∀ i ∈ auditToolIntermittency threshold events, i.tool ≠ t) ∧
      (toolErrorRate events t = 1 →
        ∀ i ∈ auditToolIntermittency threshold events, i.tool ≠ t) := by
  intro threshold events t
  constructor
  · intro hth h0 i hi hit
    rcases List.mem_filterMap.1 hi with ⟨u, _, hfor⟩
    obtain ⟨_, h2, _, htool, _⟩ := intermittencyIssueFor_some hfor
    have hut : u = t := by rw [← htool, hit]
    rw [hut, h0] at h2
    exact absurd h2 (not_le.2 hth)
  · intro h1 i hi hit
    rcases List.mem_filterMap.1 hi with ⟨u, _, hfor⟩
    obtain ⟨_, _, h3, htool, _⟩ := intermittencyIssueFor_some hfor
    have hut : u = t := by rw [← htool, hit]
    rw [hut, h1] at h3
    exact absurd h3 (by norm_num)

/-- Witness for the amended claim C6 at a concrete input. -/
theorem claim_C6_amended_witness :
    (0 : ℚ) < 0.1 ∧ toolErrorRate c6Events "Bash" = 0 ∧
    (∀ i ∈ auditToolIntermittency 0.1 c6Events, i.tool ≠ "Bash") := by
  have her : toolErrorRate c6Events "Bash" = 0 := by
    have h0 : toolErrorCount c6Events "Bash" = 0 := by decide
    rw [toolErrorRate, h0]; norm_num
  exact ⟨by norm_num, her, (claim_C6_amended 0.1 c6Events "Bash").1 (by norm_num) her⟩

/-! ## Session-stability detector (claim C5) -/

theorem stabilityIssueFor_some {events : List Event} {sid : String} {i : StabilityIssue}
    (h : stabilityIssueFor events sid = some i) :
    sessionEndCount events sid + 1 < sessionStartCount events sid ∧
    i.session_id = sid ∧ i.severity = "info" := by
  simp only [stabilityIssueFor] at h
  by_cases hc : sessionEndCount events sid + 1 < sessionStartCount events sid
  · rw [if_pos hc] at h
    injection h with hi
    subst hi
    exact ⟨hc, rfl, rfl⟩
  · rw [if_neg hc] at h
    exact absurd h (by simp)

theorem sid_mem_sessionKeys {events : List Event} {sid : String}
    (h : sessionEndCount events sid + 1 < sessionStartCount events sid) :
    sid ∈ sessionKeys events := by
  have hpos : 0 < sessionStartCount events sid := by omega
  rcases List.countP_pos_iff.1 hpos with ⟨e, he, hp⟩
  simp only [Bool.and_eq_true] at hp
  exact mem_dedupFirst.2 (List.mem_map.2 ⟨e, he, beq_iff_eq.1 hp.1⟩)

/-- Counterexample to claim C5 as stated: a session with two SessionStart
events and one Stop.  Counting Stop as session-ending (as the claim does)
the excess is exactly one, so the claim says no issue; the code counts only
SessionEnd and does emit one. -/
theorem claim_C5_counterexample :
    sessionStartCount c5Events "s" = 2 ∧
    c5Events.countP (fun e => auditSession e == "s" &&
      (e.event_type == some "SessionEnd" || e.event_type == some "Stop")) = 1 ∧
    ¬ (1 + 1 < 2) ∧
    ∃ i ∈ auditSessionStability c5Events, i.session_id = "s" := by decide

/-- Claim C5, amended: the session-instability detector emits an
info-severity Issue for a session exactly when its SessionStart count
exceeds its SessionEnd count by more than one; Stop events are not counted
as session-ending. -/
theorem claim_C5_amended :
    ∀ (events : List Event) (sid : String),
      ((∃ i ∈ auditSessionStability events, i.session_id = sid) ↔
        sessionEndCount events sid + 1 < sessionStartCount events sid) ∧
      (∀ i ∈ auditSessionStability events, i.severity = "info") := by
  intro events sid
  constructor
  · constructor
    · rintro ⟨i, hi, hisid⟩
      rcases List.mem_filterMap.1 hi with ⟨u, _, hfor⟩
      obtain ⟨hc, hid, _⟩ := stabilityIssueFor_some hfor
      have hus : u = sid := by rw [← hid, hisid]
      rwa [hus] at hc
    · intro hc
      have hsome : ∃ i, stabilityIssueFor events sid = some i ∧ i.session_id = sid := by
        simp only [stabilityIssueFor]
        rw [if_pos hc]
        exact ⟨_, rfl, rfl⟩
      rcases hsome with ⟨i, hfor, hid⟩
      exact ⟨i, List.mem_filterMap.2 ⟨sid, sid_mem_sessionKeys hc, hfor⟩, hid⟩
  · intro i hi
    rcases List.mem_filterMap.1 hi with ⟨u, _, hfor⟩
    exact (stabilityIssueFor_some hfor).2.2

/-- Witness for the amended claim C5 at a concrete input. -/
theorem claim_C5_amended_witness :
    ∃ i ∈ auditSessionStability c5Events, i.session_id = "s" :=
  (claim_C5_amended c5Events "s").1.mpr (by decide)

/-! ## Per-tool statistics invariants (claim C7) -/

/-- Counterexample to claim C7 as stated: two PostToolUse events whose
status is "pending" count as calls in `get_tool_metrics` but as neither
success nor error, so `success + errors ≠ calls`. -/
theorem claim_C7_counterexample :
    ∃ m ∈ getToolMetrics c7Events, 2 ≤ m.calls ∧ m.success + m.errors ≠ m.calls := by
  have hkeys : metricKeys c7Events = ["Bash"] := by decide
  have hc : metricCalls c7Events "Bash" = 2 := by decide
  have hs : metricSuccess c7Events "Bash" = 0 := by decide
  have he : metricErrors c7Events "Bash" = 0 := by decide
  have hone : toolMetricFor c7Events "Bash" =
      { tool := "Bash", calls := 2, success := 0, errors := 0, rate := 0 } := by
    rw [toolMetricFor, hc, hs, he]
    norm_num
  have hm : getToolMetrics c7Events =
      [{ tool := "Bash", calls := 2, success := 0, errors := 0, rate := 0 }] := by
    rw [getToolMetrics, hkeys, List.map_cons, List.map_nil, hone]
    rfl
  rw [hm]
  exact ⟨_, List.mem_singleton.2 rfl, by norm_num, by norm_num⟩

/-- Claim C7, amended: for every tool in the dashboard metrics with at
least 2 calls, `success + errors ≤ calls` (equality can fail when a status
is neither "success" nor "error") and the error rate `errors / calls` lies
in [0, 1]; for the intermittency auditor's per-tool stats, where every
observation is classified success-or-error, `success + errors = total`
holds exactly. -/
theorem claim_C7_amended :
    (∀ (events : List Event), ∀ m ∈ getToolMetrics events, 2 ≤ m.calls →
      (m.success + m.errors ≤ m.calls ∧
       0 ≤ (m.errors : ℚ) / (m.calls : ℚ) ∧ (m.errors : ℚ) / (m.calls : ℚ) ≤ 1)) ∧
    (∀ (events : List Event) (t : String),
      toolSuccessCount events t + toolErrorCount events t = toolTotal events t) := by
  constructor
  · intro events m hm hcalls
    have hm2 : m ∈ (metricKeys events).map (toolMetricFor events) :=
      ((getToolMetrics_perm events).mem_iff).1 hm
    rcases List.mem_map.1 hm2 with ⟨t, _, rfl⟩
    have hle : metricSuccess events t + metricErrors events t ≤ metricCalls events t := by
      apply countP_conj_disjoint_le
      intro e ⟨hq, hr⟩
      have h1 : e.status = some "success" := beq_iff_eq.1 hq
      have h2 : e.status = some "error" := beq_iff_eq.1 hr
      rw [h1] at h2
      exact absurd (Option.some_inj.1 h2) (by decide)
    have hec : metricErrors events t ≤ metricCalls events t := countP_conj_le _ _ _
    have hcpos : 0 < metricCalls events t := lt_of_lt_of_le (by norm_num) hcalls
    refine ⟨hle, by positivity, ?_⟩
    rw [div_le_one (by exact_mod_cast hcpos)]
    exact_mod_cast hec
  · intro events t
    rfl

/-- Witness for the amended claim C7 at a concrete input. -/
theorem claim_C7_witness :
    ((⟨"Read", 2, 2, 0, 100⟩ : ToolMetric) ∈ getToolMetrics c7wEvents ∧
      2 ≤ (⟨"Read", 2, 2, 0, 100⟩ : ToolMetric).calls) ∧
    ((⟨"Read", 2, 2, 0, 100⟩ : ToolMetric).success + (⟨"Read", 2, 2, 0, 100⟩ : ToolMetric).errors ≤
        (⟨"Read", 2, 2, 0, 100⟩ : ToolMetric).calls ∧
      0 ≤ ((⟨"Read", 2, 2, 0, 100⟩ : ToolMetric).errors : ℚ) /
        ((⟨"Read", 2, 2, 0, 100⟩ : ToolMetric).calls : ℚ) ∧
      ((⟨"Read", 2, 2, 0, 100⟩ : ToolMetric).errors : ℚ) /
        ((⟨"Read", 2, 2, 0, 100⟩ : ToolMetric).calls : ℚ) ≤ 1) := by
  have hkeys : metricKeys c7wEvents = ["Read"] := by decide
  have hc : metricCalls c7wEvents "Read" = 2 := by decide
  have hs : metricSuccess c7wEvents "Read" = 2 := by decide
  have he : metricErrors c7wEvents "Read" = 0 := by decide
  have hone : toolMetricFor c7wEvents "Read" = (⟨"Read", 2, 2, 0, 100⟩ : ToolMetric) := by
    rw [toolMetricFor, hc, hs, he]
    norm_num
  have hmem : (⟨"Read", 2, 2, 0, 100⟩ : ToolMetric) ∈ getToolMetrics c7wEvents := by
    rw [getToolMetrics, hkeys, List.map_cons, List.map_nil, hone]
    exact List.mem_singleton.2 rfl
  exact ⟨⟨hmem, by norm_num⟩, claim_C7_amended.1 c7wEvents _ hmem (by norm_num)⟩

/-! ## Health score (claims C1 and C9) -/

theorem mem_metricPosts_key {events : List Event} {e : Event}
    (he : e ∈ metricPosts events) : metricTool e ∈ metricKeys events :=
  mem_dedupFirst.2 (List.mem_map.2 ⟨e, he, rfl⟩)

theorem totalCalls_eq_direct (events : List Event) :
    totalCalls events = directTotalCalls events := by
  have hsum := sum_map_countP_eq metricTool (fun _ => true) (metricKeys events)
      (metricPosts events) (nodup_dedupFirst _) (fun e he => mem_metricPosts_key he)
  simp only [Bool.true_and, List.countP_true] at hsum
  rw [totalCalls, directTotalCalls,
    ((getToolMetrics_perm events).map (fun m => m.calls)).sum_eq, List.map_map]
  calc (((metricKeys events).map ((fun m => ToolMetric.calls m) ∘ toolMetricFor events)).sum : ℕ)
      = ((metricKeys events).map
          (fun t => (metricPosts events).countP (fun e => metricTool e == t))).sum := rfl
    _ = (metricPosts events).length := hsum

theorem totalErrors_eq_direct (events : List Event) :
    totalErrors events = directTotalErrors events := by
  have hsum := sum_map_countP_eq metricTool (fun e => e.status == some "error") (metricKeys events)
      (metricPosts events) (nodup_dedupFirst _) (fun e he => mem_metricPosts_key he)
  rw [totalErrors, directTotalErrors,
    ((getToolMetrics_perm events).map (fun m => m.errors)).sum_eq, List.map_map]
  calc (((metricKeys events).map ((fun m => ToolMetric.errors m) ∘ toolMetricFor events)).sum : ℕ)
      = ((metricKeys events).map
          (fun t => (metricPosts events).countP
            (fun e => metricTool e == t && (e.status == some "error")))).sum := rfl
    _ = ((metricKeys events).map
          (fun t => (metricPosts events).countP
            (fun e => (e.status == some "error") && (metricTool e == t)))).sum := by
        refine congrArg List.sum (List.map_congr_left fun t _ => ?_)
        exact List.countP_congr fun e _ => by
          simp only [Bool.and_eq_true]
          exact and_comm
    _ = (metricPosts events).countP (fun e => e.status == some "error") := hsum

theorem mem_metricKeys_calls_pos {events : List Event} {t : String}
    (ht : t ∈ metricKeys events) : 0 < metricCalls events t := by
  rcases List.mem_map.1 (mem_dedupFirst.1 ht) with ⟨e, he, rfl⟩
  exact List.countP_pos_iff.2 ⟨e, he, by simp⟩

theorem unreliableCount_eq_keys (events : List Event) :
    unreliableCount events = unreliableKeyCount events := by
  rw [unreliableCount, unreliableKeyCount,
    (getToolMetrics_perm events).countP_eq, List.countP_map]
  refine List.countP_congr fun t ht => ?_
  have hpos := mem_metricKeys_calls_pos ht
  simp only [Function.comp, toolMetricFor]
  simp [hpos]

/-- Claim C1: `calculate_health_score` computes exactly the stated
deterministic formula, applied to the overall error rate (total errors over
total PostToolUse-with-tool calls), the count of tools with error rate
strictly over 0.2, session completeness, and the Pre/Post counts. -/
theorem claim_C1 :
    ∀ events : List Event,
      calculateHealthScore events =
        healthScoreSpecFormula (overallErrorRate events) (unreliableKeyCount events)
          (hasSessionStart events) (hasSessionEndOrStop events)
          (preCount events) (postCount events) := by
  intro events
  simp only [calculateHealthScore, healthScoreSpecFormula]
  rw [totalCalls_eq_direct, totalErrors_eq_direct, unreliableCount_eq_keys]
  have h1 : (if 0 < directTotalCalls events then
        (directTotalErrors events : ℚ) / (directTotalCalls events : ℚ) * 40
      else 0) = overallErrorRate events * 40 := by
    rw [overallErrorRate]
    by_cases h : 0 < directTotalCalls events
    · rw [if_pos h, if_pos h]
    · rw [if_neg h, if_neg h, zero_mul]
  have h2 : min ((unreliableKeyCount events : ℚ) * 10) 30 =
      min (10 * (unreliableKeyCount events : ℚ)) 30 := by
    rw [mul_comm]
  rw [h1, h2]

/-- Claim C9: the health score always lies in [0, 100], and the stated
formula is monotonically non-increasing in the overall error rate with all
other inputs fixed. -/
theorem claim_C9 :
    (∀ events : List Event,
      0 ≤ calculateHealthScore events ∧ calculateHealthScore events ≤ 100) ∧
    (∀ (er1 er2 : ℚ) (u : ℕ) (hs he : Bool) (pres posts : ℕ), er1 ≤ er2 →
      healthScoreSpecFormula er2 u hs he pres posts ≤
        healthScoreSpecFormula er1 u hs he pres posts) := by
  constructor
  · intro events
    simp only [calculateHealthScore]
    exact ⟨le_max_left _ _, max_le (by norm_num) (min_le_left _ _)⟩
  · intro er1 er2 u hs he pres posts h
    simp only [healthScoreSpecFormula]
    have hmul : er1 * 40 ≤ er2 * 40 := by linarith
    exact max_le_max (le_refl 0)
      (min_le_min (le_refl 100) (ratTrunc_mono (by linarith)))

/-- Witness for claim C9's monotonicity at concrete error rates. -/
theorem claim_C9_witness :
    (0 : ℚ) ≤ 1/2 ∧
    healthScoreSpecFormula (1/2) 0 true true 0 0 ≤
      healthScoreSpecFormula 0 0 true true 0 0 :=
  ⟨by norm_num, claim_C9.2 0 (1/2) 0 true true 0 0 (by norm_num)⟩

/-! ## Trace diffing (claims C3 and C8) -/

theorem toolKeysOf_analyze (events : List Event) :
    toolKeysOf (analyzeTrace events) = sigKeys events := by
  simp only [toolKeysOf, analyzeTrace, List.map_map]
  exact List.map_id _

theorem errToolSetOf_analyze (events : List Event) :
    errToolSetOf (analyzeTrace events) = dedupFirst (errTools events) := by
  simp only [errToolSetOf, analyzeTrace, List.map_map]
  rfl

theorem lookupStats_analyze {events : List Event} {k : String} (hk : k ∈ sigKeys events) :
    lookupStats (analyzeTrace events) k =
      { count := sigCount events k
        errors := sigErrors events k
        statuses := ((diffToolEvents events).filter (fun e => sigOf e == k)).map
          (fun e => e.status) } := by
  rw [lookupStats]
  have htc : (analyzeTrace events).tool_calls =
      (sigKeys events).map (fun k =>
        (k, ({ count := sigCount events k
               errors := sigErrors events k
               statuses := ((diffToolEvents events).filter (fun e => sigOf e == k)).map
                 (fun e => e.status) } : SigStats))) := rfl
  rw [htc, lookup_map_self _ _ _ hk]
  rfl

theorem errInc_iff {t1 t2 : TraceAnalysis} {k : String} :
    (∃ c, changedFor t1 t2 k = some c ∧
      (match c.errors_change with
        | some ft => decide (ft.1 < ft.2)
        | none => false) = true) ↔
    (lookupStats t1 k).errors < (lookupStats t2 k).errors := by
  simp only [changedFor]
  by_cases he : (lookupStats t1 k).errors ≠ (lookupStats t2 k).errors
  · rw [if_pos he, if_neg (by simp)]
    constructor
    · rintro ⟨c, hc, hp⟩
      injection hc with hc
      subst hc
      simpa using hp
    · intro h
      exact ⟨_, rfl, by simpa using h⟩
  · rw [if_neg he]
    have heq : (lookupStats t1 k).errors = (lookupStats t2 k).errors := not_ne_iff.1 he
    by_cases hc : (lookupStats t1 k).count ≠ (lookupStats t2 k).count
    · rw [if_pos hc, if_neg (by simp)]
      constructor
      · rintro ⟨c, hcc, hp⟩
        injection hcc with hcc
        subst hcc
        simp at hp
      · intro h
        exact absurd h (by omega)
    · rw [if_neg hc, if_pos ⟨rfl, rfl⟩]
      constructor
      · rintro ⟨c, hcc, _⟩
        exact absurd hcc (by simp)
      · intro h
        exact absurd h (by omega)

theorem newErrors_nonempty_iff {e1 e2 : List Event} :
    ((newErrorsOf (analyzeTrace e1) (analyzeTrace e2)).isEmpty = false) ↔
      ∃ x, x ∈ errTools e2 ∧ x ∉ errTools e1 := by
  rw [newErrorsOf, errToolSetOf_analyze, errToolSetOf_analyze]
  rw [List.isEmpty_eq_false_iff_exists_mem]
  constructor
  · rintro ⟨x, hx⟩
    rw [List.mem_filter] at hx
    obtain ⟨hx1, hx2⟩ := hx
    refine ⟨x, mem_dedupFirst.1 hx1, fun hmem => ?_⟩
    have hb : (dedupFirst (errTools e1)).contains x = true :=
      List.elem_iff.2 (mem_dedupFirst.2 hmem)
    rw [hb] at hx2
    simp at hx2
  · rintro ⟨x, hx2, hx1⟩
    have hb : (dedupFirst (errTools e1)).contains x = false := by
      rcases hb : (dedupFirst (errTools e1)).contains x
      · rfl
      · exact absurd (mem_dedupFirst.1 (List.elem_iff.1 hb)) hx1
    exact ⟨x, List.mem_filter.2 ⟨mem_dedupFirst.2 hx2, by rw [hb]; rfl⟩⟩

/-- Claim C3: `has_regressions` is true iff the set of newly
error-producing tools is non-empty or some tool key present in both
analyzed traces has a strictly larger error count in the second; the full
event sequences never affect the verdict. -/
theorem claim_C3 :
    (∀ e1 e2 : List Event,
      ((compareTraces (analyzeTrace e1) (analyzeTrace e2)).summary.has_regressions = true ↔
        ((∃ x, x ∈ errTools e2 ∧ x ∉ errTools e1) ∨
         (∃ k, k ∈ sigKeys e1 ∧ k ∈ sigKeys e2 ∧ sigErrors e1 k < sigErrors e2 k)))) ∧
    (∀ (tc1 tc2 : List (String × SigStats))
       (s1 s2 s1x s2x : List (String × Option String × Option String))
       (n1 n2 : ℕ) (er1 er2 : List (String × String)) (ec1 ec2 : ℕ),
      (compareTraces ⟨tc1, s1, n1, er1, ec1⟩ ⟨tc2, s2, n2, er2, ec2⟩).summary.has_regressions =
        (compareTraces ⟨tc1, s1x, n1, er1, ec1⟩ ⟨tc2, s2x, n2, er2, ec2⟩).summary.has_regressions) := by
  constructor
  · intro e1 e2
    have hreg : (compareTraces (analyzeTrace e1) (analyzeTrace e2)).summary.has_regressions =
        (!(newErrorsOf (analyzeTrace e1) (analyzeTrace e2)).isEmpty ||
          (((toolKeysOf (analyzeTrace e1)).filter
              (fun k => (toolKeysOf (analyzeTrace e2)).contains k)).filterMap
            (changedFor (analyzeTrace e1) (analyzeTrace e2))).any
              (fun c => match c.errors_change with
                | some ft => decide (ft.1 < ft.2)
                | none => false)) := rfl
    rw [hreg]
    simp only [Bool.or_eq_true, Bool.not_eq_true']
    constructor
    · rintro (h | h)
      · exact Or.inl (newErrors_nonempty_iff.1 h)
      · rw [List.any_eq_true] at h
        rcases h with ⟨c, hc, hpred⟩
        rcases List.mem_filterMap.1 hc with ⟨k, hk, hsome⟩
        rw [List.mem_filter, toolKeysOf_analyze, toolKeysOf_analyze] at hk
        have hk1 : k ∈ sigKeys e1 := hk.1
        have hk2 : k ∈ sigKeys e2 := List.elem_iff.1 hk.2
        have hlt := errInc_iff.1 ⟨c, hsome, hpred⟩
        rw [lookupStats_analyze hk1, lookupStats_analyze hk2] at hlt
        exact Or.inr ⟨k, hk1, hk2, hlt⟩
    · rintro (h | ⟨k, hk1, hk2, hlt⟩)
      · exact Or.inl (newErrors_nonempty_iff.2 h)
      · right
        rw [List.any_eq_true]
        have hmem : k ∈ (toolKeysOf (analyzeTrace e1)).filter
            (fun k => (toolKeysOf (analyzeTrace e2)).contains k) := by
          rw [List.mem_filter, toolKeysOf_analyze, toolKeysOf_analyze]
          exact ⟨hk1, List.elem_iff.2 hk2⟩
        have hlk : (lookupStats (analyzeTrace e1) k).errors <
            (lookupStats (analyzeTrace e2) k).errors := by
          rw [lookupStats_analyze hk1, lookupStats_analyze hk2]
          exact hlt
        rcases errInc_iff.2 hlk with ⟨c, hsome, hpred⟩
        exact ⟨c, List.mem_filterMap.2 ⟨k, hmem, hsome⟩, hpred⟩
  · intro tc1 tc2 s1 s2 s1x s2x n1 n2 er1 er2 ec1 ec2
    rfl

theorem diffNewErrors_compare (t1 t2 : TraceAnalysis) :
    diffNewErrors (compareTraces t1 t2) = newErrorsOf t1 t2 := by
  have hec : (compareTraces t1 t2).error_changes =
      (if !(newErrorsOf t1 t2).isEmpty then [("new_errors", newErrorsOf t1 t2)] else []) ++
      (if !(resolvedErrorsOf t1 t2).isEmpty then [("resolved_errors", resolvedErrorsOf t1 t2)] else []) := rfl
  have hrn : ("resolved_errors" == "new_errors") = false := by decide
  have hnn : ("new_errors" == "new_errors") = true := by decide
  rw [diffNewErrors, hec]
  by_cases h1 : (newErrorsOf t1 t2).isEmpty = true <;>
    by_cases h2 : (resolvedErrorsOf t1 t2).isEmpty = true
  · rw [List.isEmpty_iff.1 h1]
    simp [h1, h2]
  · rw [List.isEmpty_iff.1 h1]
    simp [h1, h2, hrn]
  · rw [Bool.not_eq_true] at h1
    simp [h1, h2, hnn]
  · rw [Bool.not_eq_true] at h1
    rw [Bool.not_eq_true] at h2
    simp [h1, h2, hnn, hrn, List.filter_append]

theorem diffResolvedErrors_compare (t1 t2 : TraceAnalysis) :
    diffResolvedErrors (compareTraces t1 t2) = resolvedErrorsOf t1 t2 := by
  have hec : (compareTraces t1 t2).error_changes =
      (if !(newErrorsOf t1 t2).isEmpty then [("new_errors", newErrorsOf t1 t2)] else []) ++
      (if !(resolvedErrorsOf t1 t2).isEmpty then [("resolved_errors", resolvedErrorsOf t1 t2)] else []) := rfl
  have hnr : ("new_errors" == "resolved_errors") = false := by decide
  have hrr : ("resolved_errors" == "resolved_errors") = true := by decide
  rw [diffResolvedErrors, hec]
  by_cases h1 : (newErrorsOf t1 t2).isEmpty = true <;>
    by_cases h2 : (resolvedErrorsOf t1 t2).isEmpty = true
  · rw [List.isEmpty_iff.1 h2]
    simp [h1, h2]
  · rw [Bool.not_eq_true] at h2
    simp [h1, h2, hrr]
  · rw [List.isEmpty_iff.1 h2]
    rw [Bool.not_eq_true] at h1
    simp [h1, h2, hnr]
  · rw [Bool.not_eq_true] at h1
    rw [Bool.not_eq_true] at h2
    simp [h1, h2, hnr, hrr, List.filter_append]

/-- Claim C8: trace diffing is anti-symmetric — diffing (A, B) against
(B, A) swaps `added_tools` with `removed_tools` and the recorded
`new_errors` with `resolved_errors`, as sets. -/
theorem claim_C8 :
    ∀ e1 e2 : List Event,
      (∀ x, x ∈ (compareTraces (analyzeTrace e1) (analyzeTrace e2)).added_tools ↔
            x ∈ (compareTraces (analyzeTrace e2) (analyzeTrace e1)).removed_tools) ∧
      (∀ x, x ∈ (compareTraces (analyzeTrace e1) (analyzeTrace e2)).removed_tools ↔
            x ∈ (compareTraces (analyzeTrace e2) (analyzeTrace e1)).added_tools) ∧
      (∀ x, x ∈ diffNewErrors (compareTraces (analyzeTrace e1) (analyzeTrace e2)) ↔
            x ∈ diffResolvedErrors (compareTraces (analyzeTrace e2) (analyzeTrace e1))) ∧
      (∀ x, x ∈ diffResolvedErrors (compareTraces (analyzeTrace e1) (analyzeTrace e2)) ↔
            x ∈ diffNewErrors (compareTraces (analyzeTrace e2) (analyzeTrace e1))) := by
  intro e1 e2
  refine ⟨fun x => Iff.rfl, fun x => Iff.rfl, fun x => ?_, fun x => ?_⟩
  · rw [diffNewErrors_compare, diffResolvedErrors_compare]
    simp only [newErrorsOf, resolvedErrorsOf]
  · rw [diffResolvedErrors_compare, diffNewErrors_compare]
    simp only [newErrorsOf, resolvedErrorsOf]

/-! ## Pairing resolver (claims C10 and C4) -/

/-- Claim C10: in a session holding two PreToolUse events with the same
tool and the same second-truncated timestamp and no PostToolUse at all, the
later event overwrites the earlier in the pending dict, so exactly one
unpaired_pretooluse Issue is reported, referencing the later timestamp. -/
theorem claim_C10 :
    ∀ (tool ts1 ts2 sid : String),
      ts1.take 19 = ts2.take 19 →
      charListLt ts2.data ts1.data = false →
      auditUnpairedEvents [preEvent tool ts1 sid, preEvent tool ts2 sid] =
        [unpairedIssueOf sid ((tool, ts2.take 19), preEvent tool ts2 sid)] := by
  intro tool ts1 ts2 sid hkey hord
  have hsess : sessionKeys [preEvent tool ts1 sid, preEvent tool ts2 sid] = [sid] := by
    apply dedupFirst_const
    · simp
    · intro x hx
      simp only [List.map_cons, List.map_nil, List.mem_cons, List.not_mem_nil, or_false] at hx
      rcases hx with rfl | rfl <;> rfl
  have hfilter : List.filter (fun e => auditSession e == sid)
      [preEvent tool ts1 sid, preEvent tool ts2 sid] =
      [preEvent tool ts1 sid, preEvent tool ts2 sid] := by
    apply List.filter_eq_self.2
    intro a ha
    simp only [List.mem_cons, List.not_mem_nil, or_false] at ha
    rcases ha with rfl | rfl <;> exact beq_self_eq_true _
  have hcond : tsLt (preEvent tool ts2 sid) (preEvent tool ts1 sid) = false := hord
  have hsort : sortByTs [preEvent tool ts1 sid, preEvent tool ts2 sid] =
      [preEvent tool ts1 sid, preEvent tool ts2 sid] := by
    show sortInsert (preEvent tool ts1 sid) (sortInsert (preEvent tool ts2 sid) []) =
      [preEvent tool ts1 sid, preEvent tool ts2 sid]
    rw [sortInsert, sortInsert, if_neg (by rw [hcond]; exact Bool.false_ne_true)]
  have hkeys12 : pendKey (preEvent tool ts1 sid) = pendKey (preEvent tool ts2 sid) := by
    show ((tool, ts1.take 19) : String × String) = (tool, ts2.take 19)
    rw [hkey]
  have hpre1 : isPreEvent (preEvent tool ts1 sid) = true := rfl
  have hpre2 : isPreEvent (preEvent tool ts2 sid) = true := rfl
  have hrun : runPending [] (sortByTs [preEvent tool ts1 sid, preEvent tool ts2 sid]) =
      [(pendKey (preEvent tool ts2 sid), preEvent tool ts2 sid)] := by
    rw [hsort]
    show stepPending (stepPending [] (preEvent tool ts1 sid)) (preEvent tool ts2 sid) = _
    have hstep1 : stepPending [] (preEvent tool ts1 sid) =
        [(pendKey (preEvent tool ts1 sid), preEvent tool ts1 sid)] := by
      rw [stepPending, if_pos hpre1]
      rfl
    rw [hstep1, stepPending, if_pos hpre2, pendInsert, if_pos hkeys12]
  have hgroup : groupBySession [preEvent tool ts1 sid, preEvent tool ts2 sid] =
      [(sid, [preEvent tool ts1 sid, preEvent tool ts2 sid])] := by
    rw [groupBySession, hsess, List.map_cons, List.map_nil, hfilter]
  rw [auditUnpairedEvents, hgroup, List.flatMap_cons, List.flatMap_nil, List.append_nil,
    sessionUnpairedIssues, hrun, List.map_cons, List.map_nil]
  rfl

/-- Witness for claim C10 at concrete timestamps one tenth of a second
apart within the same second. -/
theorem claim_C10_witness :
    ("2024-01-01T00:00:00.100".take 19 = "2024-01-01T00:00:00.200".take 19) ∧
    (charListLt "2024-01-01T00:00:00.200".data "2024-01-01T00:00:00.100".data = false) ∧
    auditUnpairedEvents [preEvent "Bash" "2024-01-01T00:00:00.100" "s1",
        preEvent "Bash" "2024-01-01T00:00:00.200" "s1"] =
      [unpairedIssueOf "s1" (("Bash", "2024-01-01T00:00:00.200".take 19),
        preEvent "Bash" "2024-01-01T00:00:00.200" "s1")] :=
  ⟨by decide, by decide,
    claim_C10 "Bash" "2024-01-01T00:00:00.100" "2024-01-01T00:00:00.200" "s1"
      (by decide) (by decide)⟩

/-! ### Pending-dict restriction: the per-tool entries of the pending dict
evolve independently of other tools' events. -/

theorem isPre_false_of_isPost {e : Event} (h : isPostEvent e = true) :
    isPreEvent e = false := by
  rcases hb : isPreEvent e
  · rfl
  · exfalso
    have h1 : e.event_type = some "PreToolUse" := beq_iff_eq.1 hb
    have h2 : e.event_type = some "PostToolUse" := beq_iff_eq.1 h
    rw [h1] at h2
    exact absurd (Option.some_inj.1 h2) (by decide)

theorem pendFilter_nil (t : String) : pendFilter t [] = [] := rfl

theorem pendFilter_cons (t : String) (kv : (String × String) × Event) (p : Pending) :
    pendFilter t (kv :: p) =
      if kv.1.1 == t then kv :: pendFilter t p else pendFilter t p :=
  List.filter_cons

theorem pendFilter_insert_same {t : String} {k : String × String} (hk : k.1 = t)
    (e : Event) : ∀ p : Pending,
      pendFilter t (pendInsert k e p) = pendInsert k e (pendFilter t p) := by
  intro p
  induction p with
  | nil =>
    simp [pendInsert, pendFilter_cons, pendFilter_nil, hk]
  | cons kv rest ih =>
    rw [pendInsert]
    by_cases h : kv.1 = k
    · rw [if_pos h, pendFilter_cons, pendFilter_cons]
      have hkv : kv.1.1 = t := by rw [h, hk]
      rw [if_pos (beq_iff_eq.2 hk), if_pos (beq_iff_eq.2 hkv), pendInsert, if_pos h]
    · rw [if_neg h, pendFilter_cons, pendFilter_cons]
      by_cases ht : kv.1.1 = t
      · rw [if_pos (beq_iff_eq.2 ht), if_pos (beq_iff_eq.2 ht), ih, pendInsert, if_neg h]
      · rw [if_neg (by simpa using ht), if_neg (by simpa using ht), ih]

theorem pendFilter_insert_other {t : String} {k : String × String} (hk : k.1 ≠ t)
    (e : Event) : ∀ p : Pending,
      pendFilter t (pendInsert k e p) = pendFilter t p := by
  intro p
  induction p with
  | nil =>
    simp [pendInsert, pendFilter_cons, pendFilter_nil, hk]
  | cons kv rest ih =>
    rw [pendInsert]
    by_cases h : kv.1 = k
    · rw [if_pos h, pendFilter_cons, pendFilter_cons]
      have hkv : kv.1.1 ≠ t := by rw [h]; exact hk
      rw [if_neg (by simpa using hk), if_neg (by simpa using hkv)]
    · rw [if_neg h, pendFilter_cons, pendFilter_cons]
      by_cases ht : kv.1.1 = t
      · rw [if_pos (beq_iff_eq.2 ht), if_pos (beq_iff_eq.2 ht), ih]
      · rw [if_neg (by simpa using ht), if_neg (by simpa using ht), ih]

theorem pendFilter_erase_same {t : String} {k : String × String} (hk : k.1 = t) :
    ∀ p : Pending, pendFilter t (pendErase k p) = pendErase k (pendFilter t p) := by
  intro p
  induction p with
  | nil => rfl
  | cons kv rest ih =>
    rw [pendErase]
    by_cases h : kv.1 = k
    · rw [if_pos h, pendFilter_cons]
      have hkv : kv.1.1 = t := by rw [h, hk]
      rw [if_pos (beq_iff_eq.2 hkv), pendErase, if_pos h]
    · rw [if_neg h, pendFilter_cons, pendFilter_cons]
      by_cases ht : kv.1.1 = t
      · rw [if_pos (beq_iff_eq.2 ht), if_pos (beq_iff_eq.2 ht), ih, pendErase, if_neg h]
      · rw [if_neg (by simpa using ht), if_neg (by simpa using ht), ih]

theorem pendFilter_erase_other {t : String} {k : String × String} (hk : k.1 ≠ t) :
    ∀ p : Pending, pendFilter t (pendErase k p) = pendFilter t p := by
  intro p
  induction p with
  | nil => rfl
  | cons kv rest ih =>
    rw [pendErase]
    by_cases h : kv.1 = k
    · rw [if_pos h, pendFilter_cons]
      have hkv : kv.1.1 ≠ t := by rw [h]; exact hk
      rw [if_neg (by simpa using hkv)]
    · rw [if_neg h, pendFilter_cons, pendFilter_cons]
      by_cases ht : kv.1.1 = t
      · rw [if_pos (beq_iff_eq.2 ht), if_pos (beq_iff_eq.2 ht), ih]
      · rw [if_neg (by simpa using ht), if_neg (by simpa using ht), ih]

theorem pendFilter_fallback_same (t : String) :
    ∀ p : Pending, pendFilter t (pendFallback t p) = pendFallback t (pendFilter t p) := by
  intro p
  induction p with
  | nil => rfl
  | cons kv rest ih =>
    rw [pendFallback]
    by_cases h : kv.1.1 = t
    · rw [if_pos h, pendFilter_cons, if_pos (beq_iff_eq.2 h), pendFallback, if_pos h]
    · rw [if_neg h, pendFilter_cons, pendFilter_cons,
        if_neg (by simpa using h), if_neg (by simpa using h), ih]

theorem pendFilter_fallback_other {t u : String} (h : u ≠ t) :
    ∀ p : Pending, pendFilter t (pendFallback u p) = pendFilter t p := by
  intro p
  induction p with
  | nil => rfl
  | cons kv rest ih =>
    rw [pendFallback]
    by_cases hu : kv.1.1 = u
    · rw [if_pos hu, pendFilter_cons]
      have : kv.1.1 ≠ t := by rw [hu]; exact h
      rw [if_neg (by simpa using this)]
    · rw [if_neg hu, pendFilter_cons, pendFilter_cons]
      by_cases ht : kv.1.1 = t
      · rw [if_pos (beq_iff_eq.2 ht), if_pos (beq_iff_eq.2 ht), ih]
      · rw [if_neg (by simpa using ht), if_neg (by simpa using ht), ih]

theorem pendHasKey_filter {t : String} {k : String × String} (hk : k.1 = t) :
    ∀ p : Pending, pendHasKey k (pendFilter t p) = pendHasKey k p := by
  intro p
  induction p with
  | nil => rfl
  | cons kv rest ih =>
    rw [pendFilter_cons, pendHasKey]
    by_cases ht : kv.1.1 = t
    · rw [if_pos (beq_iff_eq.2 ht), pendHasKey, ih]
    · rw [if_neg (by simpa using ht), ih]
      have hne : (kv.1 == k) = false := by
        rcases hb : kv.1 == k
        · rfl
        · exact absurd (by rw [beq_iff_eq.1 hb, hk] : kv.1.1 = t) ht
      rw [hne, Bool.false_or]

theorem stepPending_filter (t : String) (e : Event) (p : Pending) :
    pendFilter t (stepPending p e) =
      if isPrePost e && (auditTool e == t) then stepPending (pendFilter t p) e
      else pendFilter t p := by
  rw [stepPending]
  by_cases hpre : isPreEvent e = true
  · rw [if_pos hpre]
    by_cases ht : auditTool e = t
    · have hk : (pendKey e).1 = t := ht
      rw [pendFilter_insert_same hk,
        if_pos (by simp [isPrePost, hpre, ht]), stepPending, if_pos hpre]
    · rw [pendFilter_insert_other (fun hh => ht hh),
        if_neg (by simp [isPrePost, ht])]
  · rw [if_neg hpre]
    by_cases hpost : isPostEvent e = true
    · rw [if_pos hpost]
      by_cases ht : auditTool e = t
      · have hk : (pendKey e).1 = t := ht
        have hcond : (isPrePost e && (auditTool e == t)) = true := by
          simp [isPrePost, hpost, ht]
        rw [if_pos hcond, stepPending, if_neg hpre, if_pos hpost, pendHasKey_filter hk]
        by_cases hhk : pendHasKey (pendKey e) p = true
        · rw [if_pos hhk, if_pos hhk, pendFilter_erase_same hk]
        · rw [if_neg hhk, if_neg hhk, ht, pendFilter_fallback_same]
      · have hcond : (isPrePost e && (auditTool e == t)) = false := by
          simp [isPrePost, ht]
        by_cases hhk : pendHasKey (pendKey e) p = true
        · rw [if_pos hhk, pendFilter_erase_other (fun hh => ht hh),
            if_neg (by rw [hcond]; exact Bool.false_ne_true)]
        · rw [if_neg hhk, pendFilter_fallback_other ht,
            if_neg (by rw [hcond]; exact Bool.false_ne_true)]
    · rw [if_neg hpost,
        if_neg (by simp [isPrePost, hpre, hpost])]

theorem runPending_filter (t : String) :
    ∀ (events : List Event) (p : Pending),
      pendFilter t (runPending p events) =
        runPending (pendFilter t p) (toolEvents t events) := by
  intro events
  induction events with
  | nil => intro p; rfl
  | cons e rest ih =>
    intro p
    have hstep : runPending p (e :: rest) = runPending (stepPending p e) rest := rfl
    have htE : toolEvents t (e :: rest) =
        if (isPrePost e && (auditTool e == t)) = true then e :: toolEvents t rest
        else toolEvents t rest := List.filter_cons
    rw [hstep, ih, stepPending_filter, htE]
    by_cases hc : (isPrePost e && (auditTool e == t)) = true
    · rw [if_pos hc, if_pos hc]
      rfl
    · rw [if_neg hc, if_neg hc]

/-! ### One tool's alternating Pre/Post events leave nothing pending; with
one extra dangling Pre and distinct pending keys, exactly one entry
remains. -/

theorem stepPair_nil {t : String} {a b : Event} (ha : isPreEvent a = true)
    (hb : isPostEvent b = true) (hta : auditTool a = t) (htb : auditTool b = t) :
    stepPending (stepPending [] a) b = [] := by
  have hstepa : stepPending [] a = [(pendKey a, a)] := by
    rw [stepPending, if_pos ha]
    rfl
  rw [hstepa, stepPending, if_neg (by rw [isPre_false_of_isPost hb]; exact Bool.false_ne_true),
    if_pos hb]
  by_cases hk : pendHasKey (pendKey b) [(pendKey a, a)] = true
  · rw [if_pos hk]
    have hab : pendKey a = pendKey b := by
      rw [pendHasKey, pendHasKey, Bool.or_false] at hk
      exact beq_iff_eq.1 hk
    rw [pendErase, if_pos hab]
  · rw [if_neg hk, htb, pendFallback, if_pos (show (pendKey a).1 = t from hta)]

theorem runPending_alt {t : String} :
    ∀ l : List Event, altPairs l = true → (∀ e ∈ l, auditTool e = t) →
      runPending [] l = [] := by
  intro l
  induction l using altPairs.induct with
  | case1 => intro _ _; rfl
  | case2 x => intro halt _; exact absurd halt (by rw [altPairs]; exact Bool.false_ne_true)
  | case3 a b rest ih =>
    intro halt htool
    rw [altPairs] at halt
    simp only [Bool.and_eq_true] at halt
    obtain ⟨⟨ha, hb⟩, hrest⟩ := halt
    have hstep : runPending [] (a :: b :: rest) = runPending (stepPending (stepPending [] a) b) rest := rfl
    rw [hstep, stepPair_nil ha hb (htool a (by simp)) (htool b (by simp))]
    exact ih hrest fun e he => htool e (by simp [he])

theorem runPending_alt_single {t : String} :
    ∀ (l : List Event) (k0 : String × String) (v0 : Event),
      altPairs l = true → (∀ e ∈ l, auditTool e = t) → k0.1 = t →
      k0 ∉ preKeys l → (preKeys l).Nodup →
      ∃ en, runPending [(k0, v0)] l = [en] ∧ en.1.1 = t := by
  intro l
  induction l using altPairs.induct with
  | case1 => intro k0 v0 _ _ hk0 _ _; exact ⟨(k0, v0), rfl, hk0⟩
  | case2 x => intro k0 v0 halt _ _ _ _; exact absurd halt (by rw [altPairs]; exact Bool.false_ne_true)
  | case3 a b rest ih =>
    intro k0 v0 halt htool hk0 hnotin hnodup
    rw [altPairs] at halt
    simp only [Bool.and_eq_true] at halt
    obtain ⟨⟨ha, hb⟩, hrest⟩ := halt
    have hta : auditTool a = t := htool a (by simp)
    have htb : auditTool b = t := htool b (by simp)
    have hpk : preKeys (a :: b :: rest) = pendKey a :: preKeys rest := by
      rw [preKeys, List.filter_cons, if_pos ha, List.filter_cons,
        if_neg (by rw [isPre_false_of_isPost hb]; exact Bool.false_ne_true), List.map_cons]
      rfl
    rw [hpk] at hnotin hnodup
    simp only [List.mem_cons, not_or] at hnotin
    obtain ⟨hne0, hnotin⟩ := hnotin
    obtain ⟨hanotin, hnodup⟩ := List.nodup_cons.1 hnodup
    have hstepa : stepPending [(k0, v0)] a = [(k0, v0), (pendKey a, a)] := by
      rw [stepPending, if_pos ha, pendInsert, if_neg hne0]
      rfl
    have hstepb : ∃ kv : (String × String) × Event,
        stepPending [(k0, v0), (pendKey a, a)] b = [kv] ∧
        (kv.1 = k0 ∨ kv.1 = pendKey a) ∧ kv.1.1 = t := by
      rw [stepPending, if_neg (by rw [isPre_false_of_isPost hb]; exact Bool.false_ne_true),
        if_pos hb]
      by_cases h1 : pendHasKey (pendKey b) [(k0, v0), (pendKey a, a)] = true
      · rw [if_pos h1]
        by_cases h0 : k0 = pendKey b
        · rw [pendErase, if_pos h0]
          exact ⟨(pendKey a, a), rfl, Or.inr rfl, hta⟩
        · have hab : pendKey a = pendKey b := by
            rw [pendHasKey, pendHasKey, pendHasKey, Bool.or_false, Bool.or_eq_true] at h1
            rcases h1 with h1 | h1
            · exact absurd (beq_iff_eq.1 h1) h0
            · exact beq_iff_eq.1 h1
          rw [pendErase, if_neg h0, pendErase, if_pos hab]
          exact ⟨(k0, v0), rfl, Or.inl rfl, hk0⟩
      · rw [if_neg h1, htb, pendFallback, if_pos hk0]
        exact ⟨(pendKey a, a), rfl, Or.inr rfl, hta⟩
    rcases hstepb with ⟨kv, hkv, hor, hkt⟩
    have hsteps : runPending [(k0, v0)] (a :: b :: rest) =
        runPending (stepPending (stepPending [(k0, v0)] a) b) rest := rfl
    rw [hsteps, hstepa, hkv]
    have hkv2 : kv = (kv.1, kv.2) := rfl
    rw [hkv2]
    refine ih kv.1 kv.2 hrest (fun e he => htool e (by simp [he])) hkt ?_ hnodup
    rcases hor with h | h
    · rw [h]; exact hnotin
    · rw [h]; exact hanotin

theorem altPairs_split_post :
    ∀ (X : List Event) (q : Event) (Y : List Event),
      altPairs (X ++ q :: Y) = true → isPostEvent q = true →
      ∃ X1 pre, X = X1 ++ [pre] ∧ altPairs X1 = true ∧ isPreEvent pre = true ∧
        altPairs Y = true := by
  intro X
  induction X using altPairs.induct with
  | case1 =>
    intro q Y halt hq
    cases Y with
    | nil => exact absurd halt (by rw [List.nil_append, altPairs]; exact Bool.false_ne_true)
    | cons y ys =>
      rw [List.nil_append, altPairs] at halt
      simp only [Bool.and_eq_true] at halt
      rw [isPre_false_of_isPost hq] at halt
      exact absurd halt.1.1 Bool.false_ne_true
  | case2 x =>
    intro q Y halt hq
    rw [List.cons_append, List.nil_append, altPairs] at halt
    simp only [Bool.and_eq_true] at halt
    exact ⟨[], x, rfl, rfl, halt.1.1, halt.2⟩
  | case3 a b X2 ih =>
    intro q Y halt hq
    rw [List.cons_append, List.cons_append, altPairs] at halt
    simp only [Bool.and_eq_true] at halt
    obtain ⟨⟨ha, hb⟩, hrest⟩ := halt
    obtain ⟨X1, pre, hX, h1, h2, h3⟩ := ih q Y hrest hq
    refine ⟨a :: b :: X1, pre, by rw [hX]; rfl, ?_, h2, h3⟩
    rw [altPairs]
    simp [ha, hb, h1]

/-! ### Assembling the unpaired-events audit for whole sessions -/

theorem toolEvents_all {t : String} {events : List Event} :
    ∀ e ∈ toolEvents t events, auditTool e = t := by
  intro e he
  have := (List.mem_filter.1 he).2
  simp only [Bool.and_eq_true] at this
  exact beq_iff_eq.1 this.2

theorem toolEvents_nil_of_not_mem {t : String} {events : List Event}
    (h : t ∉ sessionToolKeys events) : toolEvents t events = [] := by
  rcases heq : toolEvents t events with _ | ⟨e, rest⟩
  · rfl
  · exfalso
    have he : e ∈ toolEvents t events := by rw [heq]; simp
    have hp := (List.mem_filter.1 he).2
    simp only [Bool.and_eq_true] at hp
    refine h (mem_dedupFirst.2 (List.mem_map.2 ⟨e, ?_, beq_iff_eq.1 hp.2⟩))
    exact List.mem_filter.2 ⟨(List.mem_filter.1 he).1, hp.1⟩

theorem allAlternating_forall {events : List Event} (h : allAlternating events) :
    ∀ t, altPairs (toolEvents t events) = true := by
  intro t
  by_cases ht : t ∈ sessionToolKeys events
  · exact h t ht
  · rw [toolEvents_nil_of_not_mem ht]
    rfl

theorem runPending_nil_of_alternating {events : List Event}
    (halt : ∀ t, altPairs (toolEvents t events) = true) :
    runPending [] events = [] := by
  rw [List.eq_nil_iff_forall_not_mem]
  intro x hx
  have hmem : x ∈ pendFilter x.1.1 (runPending [] events) :=
    List.mem_filter.2 ⟨hx, beq_self_eq_true _⟩
  rw [runPending_filter, pendFilter_nil,
    runPending_alt (toolEvents x.1.1 events) (halt x.1.1) toolEvents_all] at hmem
  exact absurd hmem (List.not_mem_nil x)

theorem groupBySession_single {sid : String} {events : List Event}
    (hs : sameSession sid events) (hne : events ≠ []) :
    groupBySession events = [(sid, events)] := by
  have hkeys : sessionKeys events = [sid] := by
    apply dedupFirst_const (by simpa using hne)
    intro x hx
    rcases List.mem_map.1 hx with ⟨e, he, rfl⟩
    exact hs e he
  rw [groupBySession, hkeys, List.map_cons, List.map_nil,
    List.filter_eq_self.2 fun e he => by rw [hs e he]; exact beq_self_eq_true _]

theorem sortByTs_sorted_id {events : List Event} (h : tsSorted events) :
    sortByTs events = events := by
  induction events with
  | nil => rfl
  | cons a rest ih =>
    rw [sortByTs, ih (List.pairwise_cons.1 h).2]
    cases rest with
    | nil => rfl
    | cons x xs =>
      rw [sortInsert,
        if_neg (by rw [(List.pairwise_cons.1 h).1 x (by simp)]; exact Bool.false_ne_true)]

theorem filters_nil_eq_nil {α : Type} {p : α → Bool} {l : List α}
    (h1 : l.filter p = []) (h2 : l.filter (fun a => !(p a)) = []) : l = [] := by
  rw [List.eq_nil_iff_forall_not_mem]
  intro a ha
  rcases hp : p a
  · rw [List.filter_eq_nil_iff] at h2
    exact h2 a ha (by rw [hp]; rfl)
  · rw [List.filter_eq_nil_iff] at h1
    exact h1 a ha hp

theorem list_eq_singleton_of_filter {α : Type} {p : α → Bool} {l : List α} {x : α}
    (h1 : l.filter p = [x]) (h2 : l.filter (fun a => !(p a)) = []) : l = [x] := by
  induction l with
  | nil => exact absurd h1 (by simp)
  | cons y ys ih =>
    rcases hy : p y
    · exfalso
      rw [List.filter_cons, if_pos (by rw [hy]; rfl)] at h2
      exact absurd h2 (by simp)
    · rw [List.filter_cons, if_pos hy] at h1
      injection h1 with hyx h1
      rw [List.filter_cons, if_neg (by rw [hy]; simp)] at h2
      have hys : ys = [] := filters_nil_eq_nil h1 h2
      rw [hyx, hys]

/-- Claim C4 (amended): in a session of timestamp-ordered events whose
Pre/Post subsequence alternates in pairs for every tool, the unpaired-event
detector emits no issue; and removing one PostToolUse event emits exactly
one unpaired_pretooluse issue, provided the removed event's tool has
pairwise-distinct (tool, second) pending keys on its PreToolUse events
(without that proviso a colliding key can make the count zero, as the
counterexample shows). -/
theorem claim_C4 :
    ∀ (sid : String) (events : List Event),
      sameSession sid events → tsSorted events → allAlternating events →
      (auditUnpairedEvents events = [] ∧
       (∀ A q B, events = A ++ q :: B → isPostEvent q = true →
         distinctPreKeys (auditTool q) (A ++ B) →
         ∃ i, auditUnpairedEvents (A ++ B) = [i] ∧ i.type = "unpaired_pretooluse")) := by
  intro sid events hsess hsort halt
  constructor
  · by_cases hne : events = []
    · rw [hne]
      rfl
    · rw [auditUnpairedEvents, groupBySession_single hsess hne, List.flatMap_cons,
        List.flatMap_nil, List.append_nil, sessionUnpairedIssues,
        sortByTs_sorted_id hsort, runPending_nil_of_alternating (allAlternating_forall halt),
        List.map_nil]
  · intro A q B hdecomp hq hdist
    have hsess2 : sameSession sid (A ++ B) := by
      intro e he
      apply hsess e
      rw [hdecomp]
      rcases List.mem_append.1 he with h | h
      · exact List.mem_append_left _ h
      · exact List.mem_append_right _ (List.mem_cons_of_mem _ h)
    have hsort2 : tsSorted (A ++ B) := by
      refine List.Pairwise.sublist ?_ (hdecomp ▸ hsort)
      exact List.Sublist.append_left (List.sublist_cons_self q B) A
    have hqpp : isPrePost q = true := by simp [isPrePost, hq]
    have htE : toolEvents (auditTool q) events =
        toolEvents (auditTool q) A ++ q :: toolEvents (auditTool q) B := by
      rw [hdecomp]
      show List.filter (fun e => isPrePost e && (auditTool e == auditTool q)) (A ++ q :: B) = _
      rw [List.filter_append, List.filter_cons, if_pos (by simp [hqpp])]
      rfl
    have halt0 := allAlternating_forall halt (auditTool q)
    rw [htE] at halt0
    obtain ⟨X1, pre, hX, hX1alt, hpre, hYalt⟩ := altPairs_split_post _ q _ halt0 hq
    have htE2 : toolEvents (auditTool q) (A ++ B) =
        X1 ++ pre :: toolEvents (auditTool q) B := by
      show List.filter (fun e => isPrePost e && (auditTool e == auditTool q)) (A ++ B) = _
      rw [List.filter_append,
        show List.filter (fun e => isPrePost e && (auditTool e == auditTool q)) A =
          X1 ++ [pre] from hX,
        List.append_assoc, List.singleton_append]
      rfl
    have htoolsA : ∀ e ∈ X1, auditTool e = auditTool q := by
      intro e he
      exact toolEvents_all e (by rw [hX]; exact List.mem_append_left _ he)
    have hpretool : auditTool pre = auditTool q :=
      toolEvents_all pre (by rw [hX]; exact List.mem_append_right _ (by simp))
    have hdist2 : (preKeys (toolEvents (auditTool q) (A ++ B))).Nodup := hdist
    rw [htE2] at hdist2
    have hpk2 : preKeys (X1 ++ pre :: toolEvents (auditTool q) B) =
        preKeys X1 ++ pendKey pre :: preKeys (toolEvents (auditTool q) B) := by
      show ((X1 ++ pre :: toolEvents (auditTool q) B).filter isPreEvent).map pendKey = _
      rw [List.filter_append, List.filter_cons, if_pos hpre, List.map_append, List.map_cons]
      rfl
    rw [hpk2] at hdist2
    obtain ⟨_, hmid, _⟩ := List.nodup_append.1 hdist2
    obtain ⟨hnotinB, hnodupB⟩ := List.nodup_cons.1 hmid
    have hpre_t : (pendKey pre).1 = auditTool q := hpretool
    have hrunsingle : ∃ en, runPending [] (toolEvents (auditTool q) (A ++ B)) = [en] ∧
        en.1.1 = auditTool q := by
      rw [htE2]
      have hsplit : runPending [] (X1 ++ pre :: toolEvents (auditTool q) B) =
          runPending (stepPending (runPending [] X1) pre)
            (toolEvents (auditTool q) B) := by
        show (X1 ++ pre :: toolEvents (auditTool q) B).foldl stepPending [] = _
        rw [List.foldl_append]
        rfl
      rw [hsplit, runPending_alt X1 hX1alt htoolsA]
      have hsteppre : stepPending [] pre = [(pendKey pre, pre)] := by
        rw [stepPending, if_pos hpre]
        rfl
      rw [hsteppre]
      exact runPending_alt_single _ (pendKey pre) pre hYalt toolEvents_all hpre_t
        hnotinB hnodupB
    rcases hrunsingle with ⟨en, hen, _⟩
    have hother : ∀ u, u ≠ auditTool q → runPending [] (toolEvents u (A ++ B)) = [] := by
      intro u hu
      have heq : toolEvents u (A ++ B) = toolEvents u events := by
        rw [hdecomp]
        show List.filter (fun e => isPrePost e && (auditTool e == u)) (A ++ B) =
          List.filter (fun e => isPrePost e && (auditTool e == u)) (A ++ q :: B)
        rw [List.filter_append, List.filter_append, List.filter_cons,
          if_neg (by
            intro h
            simp only [Bool.and_eq_true] at h
            exact hu ((beq_iff_eq.1 h.2).symm))]
      rw [heq]
      exact runPending_alt _ (allAlternating_forall halt u) toolEvents_all
    have hfilt : (runPending [] (A ++ B)).filter
        (fun kv => kv.1.1 == auditTool q) = [en] := by
      have : pendFilter (auditTool q) (runPending [] (A ++ B)) = [en] := by
        rw [runPending_filter, pendFilter_nil, hen]
      exact this
    have hfiltnot : (runPending [] (A ++ B)).filter
        (fun kv => !(kv.1.1 == auditTool q)) = [] := by
      rw [List.filter_eq_nil_iff]
      intro kv hkv hneg
      have hne : kv.1.1 ≠ auditTool q := by
        intro h
        rw [h] at hneg
        simp at hneg
      have hmem : kv ∈ pendFilter kv.1.1 (runPending [] (A ++ B)) :=
        List.mem_filter.2 ⟨hkv, beq_self_eq_true _⟩
      rw [runPending_filter, pendFilter_nil, hother kv.1.1 hne] at hmem
      exact absurd hmem (List.not_mem_nil kv)
    have hp : runPending [] (A ++ B) = [en] :=
      list_eq_singleton_of_filter hfilt hfiltnot
    have hne2 : A ++ B ≠ [] := by
      intro h
      rw [h] at htE2
      simp [toolEvents] at htE2
    rw [auditUnpairedEvents, groupBySession_single hsess2 hne2, List.flatMap_cons,
      List.flatMap_nil, List.append_nil, sessionUnpairedIssues, sortByTs_sorted_id hsort2,
      hp, List.map_cons, List.map_nil]
    exact ⟨unpairedIssueOf sid en, rfl, rfl⟩

set_option maxRecDepth 4000 in
/-- Counterexample to claim C4 as stated: a session of two alternating
Bash pairs within one second.  After removing the first PostToolUse, the
second PreToolUse overwrites the dangling one in the pending dict and the
detector reports zero unpaired events instead of one. -/
theorem claim_C4_counterexample :
    sameSession "s1" c4xFull ∧ tsSorted c4xFull ∧ allAlternating c4xFull ∧
    c4xFull = [c4xPre1] ++ c4xPost1 :: [c4xPre2, c4xPost2] ∧
    isPostEvent c4xPost1 = true ∧
    auditUnpairedEvents ([c4xPre1] ++ [c4xPre2, c4xPost2]) = [] := by decide

set_option maxRecDepth 4000 in
/-- Witness for the amended claim C4 at a concrete two-tool session. -/
theorem claim_C4_witness :
    auditUnpairedEvents c4wEvents = [] ∧
    (∃ i, auditUnpairedEvents
        ([preEvent "Bash" "2024-01-01T00:00:01.000" "s1"] ++
         [preEvent "Bash" "2024-01-01T00:00:02.000" "s1",
          postEventAt "Bash" "2024-01-01T00:00:02.500" "s1",
          preEvent "Read" "2024-01-01T00:00:03.000" "s1",
          postEventAt "Read" "2024-01-01T00:00:03.500" "s1"]) = [i] ∧
      i.type = "unpaired_pretooluse") := by
  have h := claim_C4 "s1" c4wEvents (by decide) (by decide) (by decide)
  exact ⟨h.1, h.2 [preEvent "Bash" "2024-01-01T00:00:01.000" "s1"]
    (postEventAt "Bash" "2024-01-01T00:00:01.500" "s1")
    [preEvent "Bash" "2024-01-01T00:00:02.000" "s1",
     postEventAt "Bash" "2024-01-01T00:00:02.500" "s1",
     preEvent "Read" "2024-01-01T00:00:03.000" "s1",
     postEventAt "Read" "2024-01-01T00:00:03.500" "s1"] (by decide) (by decide) (by decide)⟩

end CtxMonitor
